import Mathlib

/-
Verification of the Discord poker bot engine.

The sources consist of src/main.py (the command dispatcher) and src/game.py
(the Game turn/state machine).  The modules player.py, pot.py and poker.py
are imported by game.py but are not part of the sources; the Player record,
the PotManager operations and the hand evaluation they provide are modelled
from the specification, and every such definition is marked with a doc
comment beginning "Modelled from the spec:".

Python peculiarities are embedded faithfully:
* list indexing accepts negative indices (lst[-1] is the last element) and
  raises IndexError otherwise; we model an indexing access by pyGet, which
  returns none exactly when Python would raise;
* the % operator on ints returns a result with the sign of the divisor,
  which for positive divisors agrees with Int.emod; taking % len(lst) on an
  empty list raises ZeroDivisionError, modelled by wrapIdx returning none;
* operations that can raise propagate the failure: every game operation
  returns an Option, and none means the Python code would have thrown.

Players are identified by natural-number ids; the mutable Player objects
shared between Game.players, Game.in_hand and the pot are modelled by a
store function from ids to Player records, so that a mutation through one
alias is visible through all of them, as in Python.
Hole and community cards never influence the betting logic (they are only
consumed by the absent hand evaluator), so cards are bare naturals and the
hand strengths used at showdown are a ranks field of the state.
-/

-- The stage of the game, from game.py (class GameState)
inductive GameState where
  | NO_GAME
  | WAITING
  | NO_HANDS
  | HANDS_DEALT
  | FLOP_DEALT
  | TURN_DEALT
  | RIVER_DEALT
deriving DecidableEq

/-- Modelled from the spec: the Player record of the absent player.py, with
balance (chips not committed to the hand), the current-round bet, and the
has-acted flag used for round completion. -/
structure Player where
  balance : Nat
  cur_bet : Nat
  placed_bet : Bool
deriving DecidableEq

/-- Modelled from the spec: max-bet is balance plus the current-round bet,
the all-in ceiling (property Player.max_bet of the absent player.py). -/
def max_bet (p : Player) : Nat := p.balance + p.cur_bet

/-- Modelled from the spec: the PotManager state of the absent pot.py: the
players still contesting the pot, the running bet to call, the players dealt
into the hand and their total contributions this hand. -/
structure PotManager where
  in_pot : List Nat
  cur_bet : Nat
  hand_players : List Nat
  contrib : Nat → Nat

/-- Modelled from the spec: the total value of the pot is the sum of all
recorded contributions. -/
def PotManager.value (p : PotManager) : Nat :=
  (p.hand_players.map p.contrib).sum

-- The whole Game state of game.py, plus the modelled pot, the player store
-- and the modelled showdown hand strengths.
structure Game where
  state : GameState
  players : List Nat
  in_hand : List Nat
  dealer_index : Int
  first_bettor : Int
  turn_index : Int
  shared_cards : List Nat
  deck : List Nat
  pot : PotManager
  store : Nat → Player
  blind : Nat
  starting_blind : Nat
  buy_in : Nat
  raise_delay : Nat
  last_raise : Option Nat
  ranks : Nat → Nat

-- Python list indexing: a negative index counts from the end, and any
-- index outside [-n, n) raises IndexError.
def pyIdx (n : Nat) (i : Int) : Option Nat :=
  if 0 ≤ i then (if i < (n : Int) then some i.toNat else none)
  else (if 0 ≤ i + (n : Int) then some (i + (n : Int)).toNat else none)

def pyGet (l : List α) (i : Int) : Option α := do
  let j ← pyIdx l.length i
  l[j]?

-- Python i % n for a list length n: ZeroDivisionError on an empty list,
-- otherwise a result in [0, n), which is Int.emod for a positive divisor.
def wrapIdx (i : Int) (n : Nat) : Option Int :=
  if n = 0 then none else some (i % (n : Int))

-- Updating the shared Player object of one id in the store.
def updStore (f : Nat → Player) (pid : Nat) (v : Player) : Nat → Player :=
  fun x => if x = pid then v else f x

-- Recording amt more chips contributed by pid.
def bumpContrib (f : Nat → Nat) (pid : Nat) (amt : Nat) : Nat → Nat :=
  fun x => if x = pid then f x + amt else f x

/-- Modelled from the spec: PotManager.new_hand resets the contributions,
sets the bet to call to 0 and marks all given players as in the pot. -/
def pot_new_hand (players : List Nat) : PotManager :=
  { in_pot := players, cur_bet := 0, hand_players := players,
    contrib := fun _ => 0 }

/-- Modelled from the spec: PotManager.pay_blind deducts min(amount,
balance) from the player into the pot and reports whether the player is now
all in; the bet to call is raised to the nominal blind amount. -/
def pay_blind (s : Game) (pid : Nat) (amount : Nat) : Game × Bool :=
  let pl := s.store pid
  let amt := min amount pl.balance
  let pl2 := { pl with balance := pl.balance - amt, cur_bet := pl.cur_bet + amt }
  let pot2 := { s.pot with
    cur_bet := max s.pot.cur_bet amount,
    contrib := bumpContrib s.pot.contrib pid amt }
  ({ s with store := updStore s.store pid pl2, pot := pot2 }, pl2.balance == 0)

/-- Modelled from the spec: PotManager.handle_call moves chips from the
balance to match the bet to call, capping at the full remaining balance. -/
def handle_call (s : Game) (pid : Nat) : Game :=
  let pl := s.store pid
  let delta := min (s.pot.cur_bet - pl.cur_bet) pl.balance
  let pl2 := { pl with
    balance := pl.balance - delta,
    cur_bet := pl.cur_bet + delta, placed_bet := true }
  let pot2 := { s.pot with contrib := bumpContrib s.pot.contrib pid delta }
  { s with store := updStore s.store pid pl2, pot := pot2 }

/-- Modelled from the spec: PotManager.handle_raise increases the bet to
call by amount and commits the player to match the new total, failing if
that total would exceed the player's max bet. -/
def handle_raise (s : Game) (pid : Nat) (amount : Nat) : Option Game :=
  let pl := s.store pid
  let target := s.pot.cur_bet + amount
  if max_bet pl < target then none
  else
    let delta := target - pl.cur_bet
    let pl2 := { pl with
      balance := pl.balance - delta,
      cur_bet := target, placed_bet := true }
    let pot2 := { s.pot with
      cur_bet := target,
      contrib := bumpContrib s.pot.contrib pid delta }
    some { s with store := updStore s.store pid pl2, pot := pot2 }

/-- Modelled from the spec: PotManager.handle_fold removes the player from
the pot without returning chips. -/
def handle_fold (s : Game) (pid : Nat) : Game :=
  { s with pot := { s.pot with in_pot := s.pot.in_pot.erase pid } }

/-- Modelled from the spec: PotManager.round_over is true when every player
still in the pot is all in or has matched the bet to call after acting. -/
def round_over (s : Game) : Bool :=
  s.pot.in_pot.all fun pid =>
    (s.store pid).balance == 0 ||
      ((s.store pid).cur_bet == s.pot.cur_bet && (s.store pid).placed_bet)

/-- Modelled from the spec: PotManager.betting_over is true when at most one
player remains who could still act. -/
def betting_over (s : Game) : Bool :=
  decide ((s.pot.in_pot.filter fun pid => (s.store pid).balance != 0).length ≤ 1)

/-- Modelled from the spec: PotManager.next_round clears the per-round bets
of the players in the pot and resets the bet to call to 0. -/
def pot_next_round (s : Game) : Game :=
  let st := s.pot.in_pot.foldl
    (fun f pid => updStore f pid { f pid with cur_bet := 0, placed_bet := false })
    s.store
  { s with store := st, pot := { s.pot with cur_bet := 0 } }

-- Game.leave_hand from game.py: removes a player from the betting rotation
-- and re-indexes first_bettor and turn_index around the removal.
def leave_hand (s : Game) (pid : Nat) : Game :=
  match s.in_hand.findIdx? (fun x => x == pid) with
  | none => s
  | some i =>
    let ih := s.in_hand.eraseIdx i
    let fb1 := if (i : Int) < s.first_bettor then s.first_bettor - 1 else s.first_bettor
    let fb2 := if (ih.length : Int) ≤ fb1 then 0 else fb1
    let tn := if (ih.length : Int) ≤ s.turn_index then 0 else s.turn_index
    { s with in_hand := ih, first_bettor := fb2, turn_index := tn }

-- Game.next_dealer from game.py.
def next_dealer (s : Game) : Option Game := do
  let d ← wrapIdx (s.dealer_index + 1) s.players.length
  some { s with dealer_index := d }

-- The dealer property of game.py: self.players[self.dealer_index], an
-- access performed by status_between_rounds.
def dealer_of (s : Game) : Option Nat := pyGet s.players s.dealer_index

-- Deck.draw, spec section 3: removes and returns the front card, failing
-- on an empty deck.
def draw (s : Game) : Option (Nat × Game) :=
  match s.deck with
  | [] => none
  | c :: rest => some (c, { s with deck := rest })

def draw_shared (s : Game) : Nat → Option Game
  | 0 => some s
  | k + 1 => do
    let (c, s1) ← draw s
    draw_shared { s1 with shared_cards := s1.shared_cards ++ [c] } k

/-- Modelled from the spec: a snapshot of one player at settlement time, as
used by the side-pot algorithm of the absent pot.py: seat id (in seating
order), total contribution this hand, whether the player folded, and the
strength of the player's best hand (higher is better). -/
structure Entrant where
  pid : Nat
  contrib : Nat
  folded : Bool
  rank : Nat
deriving DecidableEq

/-- Modelled from the spec: the players eligible for a layer with threshold
hi are those who did not fold and contributed at least hi. -/
def eligible (es : List Entrant) (hi : Nat) : List Entrant :=
  es.filter fun e => !e.folded && decide (hi ≤ e.contrib)

/-- Modelled from the spec: the best hand ranking among the eligible
contestants of the layer. -/
def bestRank (es : List Entrant) (hi : Nat) : Nat :=
  ((eligible es hi).map Entrant.rank).foldr max 0

/-- Modelled from the spec: the winners of a layer are the eligible players
holding the best ranking. -/
def isWinner (es : List Entrant) (hi : Nat) (e : Entrant) : Bool :=
  !e.folded && decide (hi ≤ e.contrib) && (e.rank == bestRank es hi)

/-- Modelled from the spec: the chips of the layer between the thresholds lo
and hi are everything contributed above lo and capped at hi. -/
def layerPot (es : List Entrant) (lo hi : Nat) : Nat :=
  (es.map fun e => min e.contrib hi - min e.contrib lo).sum

def winnerCount (es : List Entrant) (hi : Nat) : Nat := es.countP (isWinner es hi)

def firstWinner (es : List Entrant) (hi : Nat) : Option Entrant :=
  es.find? (isWinner es hi)

/-- Modelled from the spec: a layer is split evenly among its winners, with
the remainder chips going to the earliest winner in seating order. -/
def layerShare (es : List Entrant) (lo hi : Nat) (e : Entrant) : Nat :=
  if isWinner es hi e then
    layerPot es lo hi / winnerCount es hi +
      (if firstWinner es hi = some e then layerPot es lo hi % winnerCount es hi else 0)
  else 0

/-- Modelled from the spec: the layer thresholds are the distinct
contribution levels of the players who did not fold, smallest first. -/
def levels (es : List Entrant) : List Nat :=
  (((es.filter fun e => !e.folded).map Entrant.contrib).dedup).insertionSort (· ≤ ·)

def payoutAux (es : List Entrant) (e : Entrant) : List Nat → Nat → Nat
  | [], _ => 0
  | hi :: rest, lo => layerShare es lo hi e + payoutAux es e rest hi

/-- Modelled from the spec: PotManager.get_winners gives each player the sum
of the shares won across all layers. -/
def payout (es : List Entrant) (e : Entrant) : Nat := payoutAux es e (levels es) 0

-- The settlement snapshot taken by Game.showdown from the pot: everyone who
-- was dealt into the hand, with their total contribution, whether they are
-- out of the pot, and their (modelled) hand strength.
def entrants_of (s : Game) : List Entrant :=
  s.pot.hand_players.map fun pid =>
    { pid := pid, contrib := s.pot.contrib pid,
      folded := !(s.pot.in_pot.contains pid), rank := s.ranks pid }

-- The crediting loop in Game.showdown: winner.balance += winnings.
def credit_winners (s : Game) : Game :=
  let es := entrants_of s
  let st := es.foldl
    (fun f e => updStore f e.pid { f e.pid with balance := (f e.pid).balance + payout es e })
    s.store
  { s with store := st }

-- The elimination loop in Game.showdown: walk the seats, popping players
-- with no chips left; if only one player remains the game is over (and the
-- function returns before adjusting the dealer); otherwise the dealer index
-- shifts down past each removed seat.
def elimAux (store : Nat → Player) : List Nat → List Nat → Int → List Nat × Int × Bool
  | done, [], dealer => (done, dealer, false)
  | done, pid :: rest, dealer =>
    if 0 < (store pid).balance then elimAux store (done ++ [pid]) rest dealer
    else
      let remaining := done ++ rest
      if remaining.length = 1 then (remaining, dealer, true)
      else
        let dealer2 := if (done.length : Int) ≤ dealer then dealer - 1 else dealer
        elimAux store done rest dealer2

-- The tail of Game.showdown after the payouts: eliminate broke players,
-- then either declare the game over or rotate the dealer for the next hand.
def elim_phase (s : Game) : Option Game :=
  let r := elimAux s.store [] s.players s.dealer_index
  if r.2.2 then
    some { s with players := r.1, dealer_index := r.2.1, state := GameState.NO_GAME }
  else do
    let s2 := { s with players := r.1, dealer_index := r.2.1, state := GameState.NO_HANDS }
    let s3 ← next_dealer s2
    let _ ← dealer_of s3
    some s3

-- Game.showdown: deal the community out to five cards, credit the payouts
-- of pot.get_winners, then eliminate and move on.
def showdown (s : Game) : Option Game := do
  let s1 ← draw_shared s (5 - s.shared_cards.length)
  elim_phase (credit_winners s1)

-- The common tail of Game.next_round: clear the per-round pot state, hand
-- the turn to the first bettor and show the current player their options
-- (an access to in_hand[turn_index]).
def next_round_common (s : Game) : Option Game := do
  let s1 := pot_next_round s
  let s2 := { s1 with turn_index := s1.first_bettor }
  let _ ← pyGet s2.in_hand s2.turn_index
  some s2

-- Game.next_round from game.py.
def next_round (s : Game) : Option Game :=
  match s.state with
  | GameState.HANDS_DEALT => do
    let s1 ← draw_shared s 3
    next_round_common { s1 with state := GameState.FLOP_DEALT }
  | GameState.FLOP_DEALT => do
    let s1 ← draw_shared s 1
    next_round_common { s1 with state := GameState.TURN_DEALT }
  | GameState.TURN_DEALT => do
    let s1 ← draw_shared s 1
    next_round_common { s1 with state := GameState.RIVER_DEALT }
  | GameState.RIVER_DEALT => showdown s
  | _ => next_round_common s

-- Game.next_turn from game.py.
def next_turn (s : Game) : Option Game :=
  if round_over s then
    if betting_over s then showdown s else next_round s
  else do
    let t ← wrapIdx (s.turn_index + 1) s.in_hand.length
    let s1 := { s with turn_index := t }
    let _ ← pyGet s1.in_hand s1.turn_index
    some s1

-- Game.check from game.py: mark the current player as having acted and
-- move on.
def check (s : Game) : Option Game := do
  let cur ← pyGet s.in_hand s.turn_index
  let pl := s.store cur
  next_turn { s with store := updStore s.store cur { pl with placed_bet := true } }

-- Game.raise_bet from game.py: raise through the pot; a player left with no
-- chips goes all in, leaving the hand with the turn pulled back one slot.
def raise_bet (s : Game) (amount : Nat) : Option Game := do
  let cur ← pyGet s.in_hand s.turn_index
  let s1 ← handle_raise s cur amount
  let s2 :=
    if (s1.store cur).balance = 0 then
      let t := leave_hand s1 cur
      { t with turn_index := t.turn_index - 1 }
    else s1
  next_turn s2

-- Game.call from game.py.
def call (s : Game) : Option Game := do
  let cur ← pyGet s.in_hand s.turn_index
  let s1 := handle_call s cur
  let s2 :=
    if (s1.store cur).balance = 0 then
      let t := leave_hand s1 cur
      { t with turn_index := t.turn_index - 1 }
    else s1
  next_turn s2

-- Game.all_in from game.py: a call when the bet to call exceeds the
-- player's max bet, otherwise a raise by the remaining capacity.
def all_in (s : Game) : Option Game := do
  let cur ← pyGet s.in_hand s.turn_index
  if max_bet (s.store cur) < s.pot.cur_bet then call s
  else raise_bet s (max_bet (s.store cur) - s.pot.cur_bet)

-- Game.fold from game.py: drop the player from pot and rotation; with one
-- player left in the pot, pay them the whole pot at once and end the hand;
-- otherwise continue betting, or go straight to showdown when betting is
-- done.
def fold (s : Game) : Option Game := do
  let cur ← pyGet s.in_hand s.turn_index
  let s1 := leave_hand (handle_fold s cur) cur
  if s1.pot.in_pot.length = 1 then do
    let w ← s1.pot.in_pot.head?
    let pl := s1.store w
    let s2 := { s1 with
      store := updStore s1.store w { pl with balance := pl.balance + s1.pot.value },
      state := GameState.NO_HANDS }
    let s3 ← next_dealer s2
    let _ ← dealer_of s3
    some s3
  else if betting_over s1 then showdown s1
  else next_turn { s1 with turn_index := s1.turn_index - 1 }

-- The dealing loop of Game.deal_hands: two hole cards per seated player
-- (their values never feed back into betting), per-round bet state reset,
-- and the player joins in_hand.
def deal_loop (s : Game) : List Nat → Option Game
  | [] => some s
  | pid :: rest => do
    let (_, s1) ← draw s
    let (_, s2) ← draw s1
    let pl := s2.store pid
    let s3 := { s2 with
      store := updStore s2.store pid { pl with cur_bet := 0, placed_bet := false },
      in_hand := s2.in_hand ++ [pid] }
    deal_loop s3 rest

-- The blind-raise timer at the top of Game.pay_blinds, with wall-clock
-- minutes as a natural number supplied by the caller.
def blinds_timer (now : Nat) (s : Game) : Game :=
  if s.raise_delay = 0 then { s with last_raise := none }
  else
    match s.last_raise with
    | none => { s with last_raise := some now }
    | some t =>
      if s.raise_delay < now - t then
        { s with blind := s.blind * 2, last_raise := some now }
      else s

-- Game.pay_blinds from game.py.  With more than 2 players the small blind
-- sits after the dealer and the big blind after that (indices computed
-- modulo len(in_hand) but used on players, as in the source), the pre-flop
-- turn is dealer+3 and the post-flop first bettor dealer+1; heads-up the
-- dealer pays the small blind and acts first, the other player (index
-- dealer-1, Python negative indexing) pays the big blind and bets first
-- post-flop.
def pay_blinds (now : Nat) (s : Game) : Option Game := do
  let s0 := blinds_timer now s
  let b := s0.blind
  if 2 < s0.players.length then do
    let i1 ← wrapIdx (s0.dealer_index + 1) s0.in_hand.length
    let small ← pyGet s0.players i1
    let i2 ← wrapIdx (s0.dealer_index + 2) s0.in_hand.length
    let big ← pyGet s0.players i2
    let ti ← wrapIdx (s0.dealer_index + 3) s0.in_hand.length
    let fb ← wrapIdx (s0.dealer_index + 1) s0.players.length
    let s1 := { s0 with turn_index := ti, first_bettor := fb }
    let p1 := pay_blind s1 small b
    let s2 := if p1.2 then leave_hand p1.1 small else p1.1
    let p2 := pay_blind s2 big (b * 2)
    some (if p2.2 then leave_hand p2.1 big else p2.1)
  else do
    let small ← pyGet s0.players s0.dealer_index
    let big ← pyGet s0.players (s0.dealer_index - 1)
    let s1 := { s0 with
      turn_index := s0.dealer_index,
      first_bettor := s0.dealer_index - 1 }
    let p1 := pay_blind s1 small b
    let s2 := if p1.2 then leave_hand p1.1 small else p1.1
    let p2 := pay_blind s2 big (b * 2)
    some (if p2.2 then leave_hand p2.1 big else p2.1)

-- Game.deal_hands from game.py: fresh shuffled deck (supplied by the
-- caller, since shuffling is random), empty board, every seated player
-- dealt in, fresh pot, blinds when the blind is positive, then turn_index
-- is pulled back one slot and next_turn advances to the first player.
def deal_hands (deckArg : List Nat) (now : Nat) (s : Game) : Option Game := do
  let s0 := { s with deck := deckArg, shared_cards := [], in_hand := [] }
  let s1 ← deal_loop s0 s0.players
  let s2 := { s1 with state := GameState.HANDS_DEALT, pot := pot_new_hand s1.players }
  let s3 ← if 0 < s2.blind then pay_blinds now s2 else some s2
  next_turn { s3 with turn_index := s3.turn_index - 1 }

-- Game.is_player / Game.add_player from game.py.
def is_player (s : Game) (uid : Nat) : Bool := s.players.contains uid

def add_player (s : Game) (uid : Nat) : Game :=
  if s.players.contains uid then s else { s with players := s.players ++ [uid] }

-- Game.start from game.py: every seated player's balance is reset to the
-- buy-in and the blind to the starting blind; the returned status line
-- reads self.players[self.dealer_index].
def game_start (s : Game) : Option Game := do
  let s1 := { s with
    state := GameState.NO_HANDS, dealer_index := 0,
    store := s.players.foldl (fun f pid => updStore f pid { f pid with balance := s.buy_in }) s.store,
    blind := s.starting_blind }
  let _ ← dealer_of s1
  some s1

-- Game.new_game / Game.__init__ from game.py: a freshly constructed Game
-- with the default options.
def init_game : Game :=
  { state := GameState.NO_GAME, players := [], in_hand := [],
    dealer_index := 0, first_bettor := 0, turn_index := -1,
    shared_cards := [], deck := [], pot := pot_new_hand [],
    store := fun _ => { balance := 0, cur_bet := 0, placed_bet := false },
    blind := 5, starting_blind := 5, buy_in := 500, raise_delay := 30,
    last_raise := none, ranks := fun _ => 0 }

-- The new_game command of main.py: it constructs a fresh Game and stores it
-- in the channel registry BEFORE inspecting the state, so the state test is
-- made on the fresh game and the previously stored game (prev) is never
-- consulted; the fresh game always has state NO_GAME, so the command always
-- registers the invoking user in a brand-new game.
def new_game_command (prev : Option Game) (uid : Nat) : Game :=
  let g := init_game
  if g.state = GameState.NO_GAME then
    { g with players := g.players ++ [uid], state := GameState.WAITING }
  else g

-- The start command of main.py.  The first branches only choose an error
-- message; the player-count guard compares len(game.players) < 0 (as in the
-- source), which no length satisfies, so it never rejects.
def start_command (s : Game) (uid : Nat) : Option Game :=
  if s.state = GameState.NO_GAME then some s
  else if s.state ≠ GameState.WAITING then some s
  else if !(is_player s uid) then some s
  else if ((s.players.length : Int) < 0) then some s
  else game_start s

-- The raise command of main.py.  The first if/elif chain only selects an
-- error message and does not return; the second chain always runs, reads
-- game.current_player (an in_hand[turn_index] access that Python performs
-- in every state), and applies game.raise_bet whenever the amount fits the
-- CURRENT player's max bet, regardless of which user submitted the command.
-- The returned Bool is true when the final message was an error message and
-- no raise was attempted.
def raise_command (s : Game) (uid : Nat) (amount : Nat) : Option (Game × Bool) := do
  let cur ← pyGet s.in_hand s.turn_index
  if max_bet (s.store cur) ≤ s.pot.cur_bet then some (s, true)
  else if max_bet (s.store cur) < s.pot.cur_bet + amount then some (s, true)
  else do
    let s1 ← raise_bet s amount
    some (s1, false)

-- The four betting states: a hand is live and bets are being taken.
def active_hand (st : GameState) : Bool :=
  match st with
  | GameState.HANDS_DEALT => true
  | GameState.FLOP_DEALT => true
  | GameState.TURN_DEALT => true
  | GameState.RIVER_DEALT => true
  | _ => false

-- A mid-hand state used to exercise the raise command: three players, a bet
-- of 10 to call, and it is the turn of player 0 (the head of in_hand).
def c1_state : Game :=
  { state := GameState.HANDS_DEALT, players := [0, 1, 2], in_hand := [0, 1, 2],
    dealer_index := 2, first_bettor := 0, turn_index := 0,
    shared_cards := [], deck := [20, 21, 22, 23, 24],
    pot := { in_pot := [0, 1, 2], cur_bet := 10, hand_players := [0, 1, 2],
             contrib := fun p => if p = 0 then 10 else if p = 1 then 5 else 0 },
    store := fun p =>
      if p = 0 then { balance := 490, cur_bet := 10, placed_bet := false }
      else if p = 1 then { balance := 495, cur_bet := 5, placed_bet := false }
      else { balance := 500, cur_bet := 0, placed_bet := false },
    blind := 5, starting_blind := 5, buy_in := 500, raise_delay := 0,
    last_raise := none, ranks := fun _ => 0 }

/-- C1: the raise command of main.py does not reject a raise submitted by a
user who is not the current player.  In c1_state the current player is
player 0 and user 1 submits a raise of 20: the command reports no error
(the flag is false), the bet to call moves from 10 to 30 and the balance of
player 0 (not of user 1!) drops from 490 to 470 — the Pot Manager state
changes even though the submission was invalid, refuting the claim that an
invalid raise is rejected before any state change. -/
theorem C1_raise_validation_bug :
    (raise_command c1_state 1 20).map
        (fun r => (r.2, r.1.pot.cur_bet, (r.1.store 0).balance, r.1.turn_index)) =
      some (false, 30, 470, 1) ∧
    pyGet c1_state.in_hand c1_state.turn_index = some 0 ∧
    (0 : Nat) ≠ 1 ∧
    c1_state.pot.cur_bet = 10 ∧ (c1_state.store 0).balance = 490 := by
  decide

-- A game with a hand in progress, stored in the channel registry.
def c5_busy : Game :=
  { c1_state with players := [1, 2, 3], in_hand := [1, 2, 3] }

/-- C5: the new_game command of main.py constructs and stores a fresh Game
before looking at any state, so the state test runs on the fresh game
(always NO_GAME) and an existing game in progress is discarded rather than
preserved: the stored result never depends on the previous game, and for a
busy game with players 1, 2, 3 the registry afterwards holds a fresh
WAITING game whose only player is the invoking user 9. -/
theorem C5_new_game_replaces_existing :
    (∀ (g : Game) (u : Nat), new_game_command (some g) u = new_game_command none u) ∧
    (new_game_command (some c5_busy) 9).players = [9] ∧
    (new_game_command (some c5_busy) 9).state = GameState.WAITING ∧
    c5_busy.state ≠ GameState.NO_GAME ∧ c5_busy.players = [1, 2, 3] :=
  ⟨fun _ _ => rfl, by decide⟩

-- A waiting game with a single joined player, id 7.
def c10_state : Game :=
  { init_game with state := GameState.WAITING, players := [7] }

/-- C10: the start command of main.py guards the player count with
len(game.players) < 0, a test no length satisfies, so a start request in
WAITING with a single joined player is not rejected: the engine start runs
and the game moves to NO_HANDS with the lone player funded, instead of
staying in WAITING as the claim requires. -/
theorem C10_start_underfilled_game :
    (start_command c10_state 7).map (fun g => (g.state, (g.store 7).balance)) =
      some (GameState.NO_HANDS, 500) ∧
    c10_state.players.length = 1 ∧ c10_state.state = GameState.WAITING := by
  decide

/-- C9: Game.all_in behaves as call exactly when the bet to call strictly
exceeds the acting player's max bet — in that case the call caps the
player's contribution at their max bet (their whole balance goes in and
their round bet reaches max_bet, the all-in mark) — and otherwise behaves
as raise_bet by max_bet minus the current bet. -/
theorem C9_all_in_degeneration (s : Game) (cur : Nat)
    (hcur : pyGet s.in_hand s.turn_index = some cur) :
    (max_bet (s.store cur) < s.pot.cur_bet →
      all_in s = call s ∧
      ((handle_call s cur).store cur).balance = 0 ∧
      ((handle_call s cur).store cur).cur_bet = max_bet (s.store cur)) ∧
    (s.pot.cur_bet ≤ max_bet (s.store cur) →
      all_in s = raise_bet s (max_bet (s.store cur) - s.pot.cur_bet)) := by
  constructor
  · intro h
    refine ⟨?_, ?_, ?_⟩
    · simp [all_in, hcur, h]
    · simp [handle_call, updStore, max_bet] at *
      omega
    · simp [handle_call, updStore, max_bet] at *
      omega
  · intro h
    simp [all_in, hcur, Nat.not_lt.mpr h]

-- The spec scenario for C9: the acting player (id 7) has balance 40 and a
-- round bet of 10, so max_bet 50, and faces a bet to call of 100.
def c9_state : Game :=
  { state := GameState.HANDS_DEALT, players := [7, 8], in_hand := [7, 8],
    dealer_index := 0, first_bettor := 1, turn_index := 0,
    shared_cards := [], deck := [1, 2, 3, 4, 5],
    pot := { in_pot := [7, 8], cur_bet := 100, hand_players := [7, 8],
             contrib := fun p => if p = 8 then 100 else if p = 7 then 60 else 0 },
    store := fun p =>
      if p = 7 then { balance := 40, cur_bet := 10, placed_bet := false }
      else { balance := 200, cur_bet := 100, placed_bet := true },
    blind := 5, starting_blind := 5, buy_in := 500, raise_delay := 0,
    last_raise := none, ranks := fun _ => 0 }

/-- C9 witness: in c9_state the acting player has max_bet 50 against a bet
of 100, and all_in degenerates to call, capping the contribution at 50,
zeroing the balance, and completing without error. -/
theorem C9_all_in_degeneration_witness :
    (all_in c9_state = call c9_state ∧
      ((handle_call c9_state 7).store 7).balance = 0 ∧
      ((handle_call c9_state 7).store 7).cur_bet = max_bet (c9_state.store 7)) ∧
    max_bet (c9_state.store 7) = 50 ∧ c9_state.pot.cur_bet = 100 ∧
    (all_in c9_state).isSome = true :=
  ⟨(C9_all_in_degeneration c9_state 7 (by decide)).1 (by decide),
   by decide, by decide, by decide⟩

lemma option_some_bind (a : α) (f : α → Option β) :
    (do let y ← some a; f y) = f a := rfl

lemma leave_hand_fields (s : Game) (pid : Nat) :
    (leave_hand s pid).store = s.store ∧ (leave_hand s pid).pot = s.pot ∧
    (leave_hand s pid).players = s.players ∧ (leave_hand s pid).state = s.state ∧
    (leave_hand s pid).shared_cards = s.shared_cards ∧
    (leave_hand s pid).deck = s.deck ∧
    (leave_hand s pid).dealer_index = s.dealer_index := by
  unfold leave_hand
  cases h : s.in_hand.findIdx? (fun x => x == pid) <;> simp

lemma pyGet_some_of_bounds (l : List α) (i : Int) (h0 : 0 ≤ i)
    (h1 : i < l.length) : ∃ a, pyGet l i = some a := by
  unfold pyGet pyIdx
  have h2 : i.toNat < l.length := by omega
  refine ⟨l[i.toNat], ?_⟩
  simp [h0, h1, List.getElem?_eq_getElem h2]

/-- C8: when the current player's fold leaves exactly one player contesting
the pot, fold pays that player the entire pot value at once, deals and
reveals nothing further (board and deck are untouched), puts the game back
in the between-hands state NO_HANDS and rotates the dealer to the next
seat. -/
theorem C8_fold_instant_win (s : Game) (cur w : Nat) (s3 : Game)
    (hcur : pyGet s.in_hand s.turn_index = some cur)
    (hone : s.pot.in_pot.erase cur = [w])
    (hp : 0 < s.players.length)
    (hf : fold s = some s3) :
    s3.state = GameState.NO_HANDS ∧
      (s3.store w).balance = (s.store w).balance + s.pot.value ∧
      s3.shared_cards = s.shared_cards ∧ s3.deck = s.deck ∧
      s3.players = s.players ∧
      s3.dealer_index = (s.dealer_index + 1) % (s.players.length : Int) := by
  obtain ⟨hst, hpot, hpl, hstate, hsh, hdk, hdl⟩ :=
    leave_hand_fields (handle_fold s cur) cur
  simp only [fold, hcur] at hf
  rw [option_some_bind] at hf
  set t := leave_hand (handle_fold s cur) cur with ht
  have h1 : t.pot.in_pot = [w] := by rw [hpot]; simpa [handle_fold] using hone
  have h2 : t.pot.value = s.pot.value := by rw [hpot]; simp [handle_fold, PotManager.value]
  have h3 : t.store = s.store := by rw [hst]; simp [handle_fold]
  have h4 : t.players = s.players := by rw [hpl]; simp [handle_fold]
  have h5 : t.dealer_index = s.dealer_index := by rw [hdl]; simp [handle_fold]
  have h6 : t.shared_cards = s.shared_cards := by rw [hsh]; simp [handle_fold]
  have h7 : t.deck = s.deck := by rw [hdk]; simp [handle_fold]
  rw [h1] at hf
  simp only [List.length_singleton, if_pos, List.head?_cons] at hf
  rw [option_some_bind] at hf
  unfold next_dealer wrapIdx at hf
  simp only [h4, h3, h2, h5, h6, h7] at hf
  rw [if_neg (by omega)] at hf
  rw [option_some_bind] at hf
  have hb0 : (0:Int) ≤ (s.dealer_index + 1) % (s.players.length : Int) :=
    Int.emod_nonneg _ (by exact_mod_cast hp.ne.symm)
  have hb1 : (s.dealer_index + 1) % (s.players.length : Int) < (s.players.length : Int) :=
    Int.emod_lt_of_pos _ (by exact_mod_cast hp)
  obtain ⟨a, ha⟩ := pyGet_some_of_bounds s.players _ hb0 hb1
  rw [option_some_bind] at hf
  unfold dealer_of at hf
  simp only [ha] at hf
  rw [option_some_bind] at hf
  injection hf with hf
  subst hf
  refine ⟨rfl, by simp [updStore], rfl, rfl, rfl, rfl⟩

-- A heads-up flop state where it is player 0's turn; if player 0 folds,
-- player 1 is alone in the pot.
def c8_state : Game :=
  { state := GameState.FLOP_DEALT, players := [0, 1], in_hand := [0, 1],
    dealer_index := 0, first_bettor := 1, turn_index := 0,
    shared_cards := [3, 4, 5], deck := [6, 7],
    pot := { in_pot := [0, 1], cur_bet := 10, hand_players := [0, 1],
             contrib := fun p => if p ≤ 1 then 10 else 0 },
    store := fun p =>
      if p = 0 then { balance := 490, cur_bet := 0, placed_bet := false }
      else { balance := 490, cur_bet := 10, placed_bet := true },
    blind := 5, starting_blind := 5, buy_in := 500, raise_delay := 0,
    last_raise := none, ranks := fun _ => 0 }

def c8_result : Game := (fold c8_state).get (by decide)

/-- C8 witness: folding player 0 in c8_state ends the hand at once, paying
player 1 the whole pot of 20 with no further cards dealt. -/
theorem C8_fold_instant_win_witness :
    c8_result.state = GameState.NO_HANDS ∧
      (c8_result.store 1).balance = (c8_state.store 1).balance + c8_state.pot.value ∧
      c8_result.shared_cards = c8_state.shared_cards ∧
      c8_result.deck = c8_state.deck ∧
      c8_result.players = c8_state.players ∧
      c8_result.dealer_index =
        (c8_state.dealer_index + 1) % (c8_state.players.length : Int) :=
  C8_fold_instant_win c8_state 0 1 c8_result (by decide) (by decide) (by decide)
    (Option.some_get _).symm

lemma sum_map_add (l : List α) (f g : α → Nat) :
    (l.map fun x => f x + g x).sum = (l.map f).sum + (l.map g).sum := by
  induction l with
  | nil => simp
  | cons a l ih =>
    simp [ih]
    omega

lemma sum_map_congr (l : List α) (f g : α → Nat) (h : ∀ x ∈ l, f x = g x) :
    (l.map f).sum = (l.map g).sum := by
  induction l with
  | nil => simp
  | cons a l ih =>
    simp only [List.map_cons, List.sum_cons]
    rw [h a (by simp), ih (fun x hx => h x (by simp [hx]))]

lemma sum_map_ite_count (l : List α) (p : α → Bool) (c : Nat) :
    (l.map fun x => if p x then c else 0).sum = c * l.countP p := by
  induction l with
  | nil => simp
  | cons a l ih =>
    simp only [List.map_cons, List.sum_cons, List.countP_cons, ih]
    cases h : p a <;> simp [h] <;> ring

lemma sum_map_ite_zero (l : List α) [DecidableEq α] (w : α) (r : Nat)
    (h : w ∉ l) : (l.map fun x => if w = x then r else 0).sum = 0 := by
  induction l with
  | nil => simp
  | cons a l ih =>
    have h1 : w ≠ a := fun hh => h (hh ▸ List.mem_cons_self a l)
    simp [h1, ih (fun hh => h (List.mem_cons_of_mem a hh))]

lemma sum_map_ite_single (l : List α) [DecidableEq α] (w : α) (r : Nat)
    (hnd : l.Nodup) (hw : w ∈ l) :
    (l.map fun x => if w = x then r else 0).sum = r := by
  induction l with
  | nil => simp at hw
  | cons a l ih =>
    rcases List.mem_cons.mp hw with rfl | h
    · have h2 : w ∉ l := (List.nodup_cons.mp hnd).1
      simp [sum_map_ite_zero l w r h2]
    · have h1 : w ≠ a := fun hh => (List.nodup_cons.mp hnd).1 (hh ▸ h)
      simp [h1, ih (List.nodup_cons.mp hnd).2 h]

lemma foldr_max_mem (l : List Nat) (h : l ≠ []) : l.foldr max 0 ∈ l := by
  induction l with
  | nil => simp at h
  | cons a l ih =>
    by_cases hl : l = []
    · subst hl; simp
    · rw [List.foldr_cons]
      rcases max_choice a (l.foldr max 0) with h1 | h1
      · rw [h1]; exact List.mem_cons_self a l
      · rw [h1]; exact List.mem_cons_of_mem a (ih hl)

lemma getLastD_mem (l : List Nat) (d : Nat) (h : l ≠ []) : l.getLastD d ∈ l := by
  induction l generalizing d with
  | nil => simp at h
  | cons a l ih =>
    rw [List.getLastD_cons]
    by_cases hl : l = []
    · subst hl; simp
    · exact List.mem_cons_of_mem a (ih a hl)

lemma sorted_le_getLastD (l : List Nat) (d x : Nat) (hs : List.Sorted (· ≤ ·) l)
    (hx : x ∈ l) : x ≤ l.getLastD d := by
  induction l generalizing d with
  | nil => simp at hx
  | cons a l ih =>
    rw [List.getLastD_cons]
    obtain ⟨h1, h2⟩ := List.sorted_cons.mp hs
    rcases List.mem_cons.mp hx with rfl | h
    · by_cases hl : l = []
      · subst hl; simp
      · exact h1 _ (getLastD_mem l x hl)
    · exact ih a h2 h

lemma exists_winner (es : List Entrant) (hi : Nat) (hne : eligible es hi ≠ []) :
    ∃ e, e ∈ es ∧ isWinner es hi e = true := by
  have h1 : bestRank es hi ∈ (eligible es hi).map Entrant.rank := by
    unfold bestRank
    apply foldr_max_mem
    simpa using hne
  obtain ⟨e, he, hr⟩ := List.mem_map.mp h1
  have hp := List.of_mem_filter he
  refine ⟨e, List.mem_of_mem_filter he, ?_⟩
  unfold isWinner
  simp only [Bool.and_eq_true] at hp ⊢
  exact ⟨hp, by simp [hr]⟩

lemma mem_levels_iff (es : List Entrant) (x : Nat) :
    x ∈ levels es ↔ x ∈ (es.filter fun e => !e.folded).map Entrant.contrib := by
  unfold levels
  rw [List.mem_insertionSort, List.mem_dedup]

lemma levels_sorted (es : List Entrant) : List.Sorted (· ≤ ·) (levels es) :=
  List.sorted_insertionSort _ _

lemma levels_mem_eligible (es : List Entrant) (hi : Nat) (h : hi ∈ levels es) :
    eligible es hi ≠ [] := by
  rw [mem_levels_iff] at h
  obtain ⟨e, hef, hc⟩ := List.mem_map.mp h
  have hp := List.of_mem_filter hef
  have hm := List.mem_of_mem_filter hef
  apply List.ne_nil_of_mem (a := e)
  unfold eligible
  refine List.mem_filter.mpr ⟨hm, ?_⟩
  simp only [Bool.and_eq_true]
  exact ⟨hp, by simp [hc]⟩

lemma sum_layerShare (es : List Entrant) (lo hi : Nat) (hnd : es.Nodup)
    (hw : ∃ e, e ∈ es ∧ isWinner es hi e = true) :
    (es.map (layerShare es lo hi)).sum = layerPot es lo hi := by
  obtain ⟨w0, hw0m, hw0⟩ := hw
  have hk : 0 < winnerCount es hi := by
    unfold winnerCount
    exact List.countP_pos_iff.mpr ⟨w0, hw0m, hw0⟩
  have hfw : (firstWinner es hi).isSome := by
    unfold firstWinner
    exact List.find?_isSome.mpr ⟨w0, hw0m, hw0⟩
  obtain ⟨w, hwum⟩ := Option.isSome_iff_exists.mp hfw
  have hwp : isWinner es hi w = true := List.find?_some hwum
  have hwm : w ∈ es := List.mem_of_find?_eq_some hwum
  have hpt : ∀ e, layerShare es lo hi e =
      (if isWinner es hi e then layerPot es lo hi / winnerCount es hi else 0) +
      (if w = e then layerPot es lo hi % winnerCount es hi else 0) := by
    intro e
    unfold layerShare
    rw [hwum]
    by_cases h : isWinner es hi e = true
    · by_cases h2 : w = e
      · simp [h, h2]
      · simp [h, h2]
    · have hne : w ≠ e := by rintro rfl; exact h hwp
      simp [h, hne]
  rw [sum_map_congr es _ _ (fun x _ => hpt x), sum_map_add,
    sum_map_ite_count, sum_map_ite_single es w _ hnd hwm]
  unfold winnerCount
  rw [Nat.mul_comm]
  exact Nat.div_add_mod _ _

def layerPotChain (es : List Entrant) : List Nat → Nat → Nat
  | [], _ => 0
  | hi :: rest, lo => layerPot es lo hi + layerPotChain es rest hi

lemma sum_payoutAux (es : List Entrant) (hnd : es.Nodup) :
    ∀ (L : List Nat) (lo : Nat),
      (∀ hi ∈ L, ∃ e, e ∈ es ∧ isWinner es hi e = true) →
      (es.map fun e => payoutAux es e L lo).sum = layerPotChain es L lo := by
  intro L
  induction L with
  | nil => intro lo _; simp [payoutAux, layerPotChain]
  | cons hi rest ih =>
    intro lo h
    simp only [payoutAux, layerPotChain]
    rw [sum_map_add, sum_layerShare es lo hi hnd (h hi (by simp)),
      ih hi (fun x hx => h x (by simp [hx]))]

lemma layerPotChain_telescope (es : List Entrant) :
    ∀ (L : List Nat) (lo : Nat), List.Sorted (· ≤ ·) L → (∀ x ∈ L, lo ≤ x) →
    layerPotChain es L lo =
      (es.map fun e => min e.contrib (L.getLastD lo) - min e.contrib lo).sum := by
  intro L
  induction L with
  | nil => intro lo _ _; simp [layerPotChain]
  | cons hi rest ih =>
    intro lo hs hlo
    obtain ⟨h1, h2⟩ := List.sorted_cons.mp hs
    rw [List.getLastD_cons]
    simp only [layerPotChain]
    rw [ih hi h2 (fun x hx => h1 x hx)]
    unfold layerPot
    rw [← sum_map_add]
    apply sum_map_congr
    intro e _
    have ha : lo ≤ hi := hlo hi (by simp)
    have hb : hi ≤ rest.getLastD hi := by
      by_cases hr : rest = []
      · subst hr; simp
      · exact h1 _ (getLastD_mem rest hi hr)
    omega

lemma layerShare_pos_winner (es : List Entrant) (e : Entrant) (lo hi : Nat)
    (h : 0 < layerShare es lo hi e) : e.folded = false ∧ hi ≤ e.contrib := by
  unfold layerShare at h
  by_cases hw : isWinner es hi e = true
  · unfold isWinner at hw
    simp only [Bool.and_eq_true, Bool.not_eq_true', decide_eq_true_eq] at hw
    exact ⟨hw.1.1, hw.1.2⟩
  · simp [hw] at h

lemma payoutAux_pos_not_folded (es : List Entrant) (e : Entrant) :
    ∀ (L : List Nat) (lo : Nat), 0 < payoutAux es e L lo → e.folded = false := by
  intro L
  induction L with
  | nil => intro lo h; simp [payoutAux] at h
  | cons hi rest ih =>
    intro lo h
    simp only [payoutAux] at h
    by_cases hs : 0 < layerShare es lo hi e
    · exact (layerShare_pos_winner es e lo hi hs).1
    · exact ih hi (by omega)

/-- C2: side-pot settlement.  For any settlement snapshot with distinct
entries in which the largest contribution belongs to a player who did not
fold (true of every hand that reaches showdown: the last bet standing was
made by a live player), the payouts of get_winners sum exactly to the total
contributions of the hand; only players who did not fold receive anything;
and a share of a layer with threshold hi only ever goes to a non-folded
player who contributed at least hi, so a player whose stake stopped at an
earlier all-in level wins nothing from higher layers. -/
theorem C2_sidepot_settlement (es : List Entrant) (hnd : es.Nodup)
    (hmax : ∃ m, m ∈ es ∧ m.folded = false ∧ ∀ e ∈ es, e.contrib ≤ m.contrib) :
    ((es.map (payout es)).sum = (es.map Entrant.contrib).sum) ∧
    (∀ e, 0 < payout es e → e.folded = false) ∧
    (∀ e lo hi, 0 < layerShare es lo hi e → e.folded = false ∧ hi ≤ e.contrib) := by
  refine ⟨?_, fun e h => payoutAux_pos_not_folded es e (levels es) 0 h,
    fun e lo hi h => layerShare_pos_winner es e lo hi h⟩
  obtain ⟨m, hm, hmf, hmc⟩ := hmax
  have hmem : m.contrib ∈ levels es := by
    rw [mem_levels_iff]
    exact List.mem_map.mpr ⟨m, List.mem_filter.mpr ⟨hm, by simp [hmf]⟩, rfl⟩
  have hne : levels es ≠ [] := List.ne_nil_of_mem hmem
  have hlast_le : (levels es).getLastD 0 ≤ m.contrib := by
    have h1 : (levels es).getLastD 0 ∈ levels es := getLastD_mem _ _ hne
    rw [mem_levels_iff] at h1
    obtain ⟨e, hef, hc⟩ := List.mem_map.mp h1
    rw [← hc]
    exact hmc e (List.mem_of_mem_filter hef)
  have hle_last : m.contrib ≤ (levels es).getLastD 0 :=
    sorted_le_getLastD _ _ _ (levels_sorted es) hmem
  have hlast : (levels es).getLastD 0 = m.contrib :=
    le_antisymm hlast_le hle_last
  have hwinners : ∀ hi ∈ levels es, ∃ e, e ∈ es ∧ isWinner es hi e = true :=
    fun hi h => exists_winner es hi (levels_mem_eligible es hi h)
  unfold payout
  rw [sum_payoutAux es hnd (levels es) 0 hwinners,
    layerPotChain_telescope es (levels es) 0 (levels_sorted es) (fun x _ => Nat.zero_le x),
    hlast]
  apply sum_map_congr
  intro e he
  have := hmc e he
  omega

-- A concrete side-pot scenario: player 0 is all in for 50 with the best
-- hand, players 1 and 2 each put in 100, and player 2 outranks player 1.
def c2_entrants : List Entrant :=
  [{ pid := 0, contrib := 50, folded := false, rank := 10 },
   { pid := 1, contrib := 100, folded := false, rank := 5 },
   { pid := 2, contrib := 100, folded := false, rank := 7 }]

/-- C2 witness: in the concrete scenario the payouts are 150 to the short
all-in player 0 (the main pot only) and 100 to player 2 (the side layer
player 0 did not contribute to), summing to the 250 contributed. -/
theorem C2_sidepot_settlement_witness :
    (((c2_entrants.map (payout c2_entrants)).sum =
        (c2_entrants.map Entrant.contrib).sum) ∧
      (∀ e, 0 < payout c2_entrants e → e.folded = false) ∧
      (∀ e lo hi, 0 < layerShare c2_entrants lo hi e →
        e.folded = false ∧ hi ≤ e.contrib)) ∧
    payout c2_entrants { pid := 0, contrib := 50, folded := false, rank := 10 } = 150 ∧
    payout c2_entrants { pid := 2, contrib := 100, folded := false, rank := 7 } = 100 ∧
    (c2_entrants.map Entrant.contrib).sum = 250 :=
  ⟨C2_sidepot_settlement c2_entrants (by decide)
      ⟨{ pid := 1, contrib := 100, folded := false, rank := 5 }, by decide, rfl, by decide⟩,
    by decide, by decide, by decide⟩

lemma updStore_same (f : Nat → Player) (pid : Nat) (v : Player) :
    updStore f pid v pid = v := by
  simp [updStore]

lemma updStore_other (f : Nat → Player) (pid : Nat) (v : Player) (x : Nat)
    (h : x ≠ pid) : updStore f pid v x = f x := by
  simp [updStore, h]

lemma bumpContrib_same (f : Nat → Nat) (pid : Nat) (amt : Nat) :
    bumpContrib f pid amt pid = f pid + amt := by
  simp [bumpContrib]

lemma bumpContrib_other (f : Nat → Nat) (pid : Nat) (amt : Nat) (x : Nat)
    (h : x ≠ pid) : bumpContrib f pid amt x = f x := by
  simp [bumpContrib, h]

lemma sum_map_bump (l : List Nat) (f : Nat → Nat) (pid : Nat) (amt : Nat)
    (hnd : l.Nodup) (hm : pid ∈ l) :
    (l.map (bumpContrib f pid amt)).sum = (l.map f).sum + amt := by
  induction l with
  | nil => simp at hm
  | cons a l ih =>
    simp only [List.map_cons, List.sum_cons]
    rcases List.mem_cons.mp hm with rfl | h
    · have h2 : pid ∉ l := (List.nodup_cons.mp hnd).1
      rw [bumpContrib_same]
      have : l.map (bumpContrib f pid amt) = l.map f := by
        apply List.map_congr_left
        intro x hx
        exact bumpContrib_other f pid amt x (fun hh => h2 (hh ▸ hx))
      rw [this]
      omega
    · have h1 : a ≠ pid := fun hh => (List.nodup_cons.mp hnd).1 (hh ▸ h)
      rw [bumpContrib_other f pid amt a h1, ih (List.nodup_cons.mp hnd).2 h]
      omega

lemma deal_loop_spec : ∀ (ps : List Nat) (s : Game),
    2 * ps.length ≤ s.deck.length →
    ∃ s2, deal_loop s ps = some s2 ∧
      s2.players = s.players ∧ s2.in_hand = s.in_hand ++ ps ∧
      s2.state = s.state ∧ s2.dealer_index = s.dealer_index ∧
      s2.first_bettor = s.first_bettor ∧ s2.turn_index = s.turn_index ∧
      s2.pot = s.pot ∧ s2.blind = s.blind ∧ s2.last_raise = s.last_raise ∧
      s2.raise_delay = s.raise_delay ∧ s2.shared_cards = s.shared_cards ∧
      s2.players.length = s.players.length ∧
      (∀ pid, (s2.store pid).balance = (s.store pid).balance) ∧
      (∀ pid, pid ∈ ps →
        (s2.store pid).cur_bet = 0 ∧ (s2.store pid).placed_bet = false) ∧
      (∀ pid, pid ∉ ps → s2.store pid = s.store pid) := by
  intro ps
  induction ps with
  | nil =>
    intro s _
    exact ⟨s, rfl, rfl, by simp, rfl, rfl, rfl, rfl, rfl, rfl, rfl, rfl, rfl, rfl,
      fun _ => rfl, fun pid h => by simp at h, fun _ _ => rfl⟩
  | cons pid ps ih =>
    intro s hd
    match hdeck : s.deck, hd with
    | c1 :: c2 :: dt, hd =>
      simp only [deal_loop, draw, hdeck]
      have hdt : 2 * ps.length ≤ dt.length := by
        simp only [List.length_cons] at hd
        omega
      obtain ⟨s2, heq, p1, p2, p3, p4, p5, p6, p7, p8, p9, p10, p11, p12,
        p13, p14, p15⟩ :=
        ih { s with
              deck := dt, in_hand := s.in_hand ++ [pid],
              store := updStore s.store pid
                { s.store pid with cur_bet := 0, placed_bet := false } } hdt
      refine ⟨s2, heq, p1, ?_, p3, p4, p5, p6, p7, p8, p9, p10, p11, p12, ?_, ?_, ?_⟩
      · rw [p2]
        simp
      · intro x
        rw [p13 x]
        by_cases hx : x = pid
        · subst hx
          simp [updStore]
        · simp [updStore, hx]
      · intro x hx
        by_cases hmem : x ∈ ps
        · exact p14 x hmem
        · have hxp : x = pid := by
            rcases List.mem_cons.mp hx with h | h
            · exact h
            · exact absurd h hmem
          subst hxp
          rw [p15 x hmem]
          simp [updStore]
      · intro x hx
        have hx1 : x ≠ pid := fun hh => hx (hh ▸ List.mem_cons_self pid ps)
        have hx2 : x ∉ ps := fun hh => hx (List.mem_cons_of_mem pid hh)
        rw [p15 x hx2]
        simp [updStore, hx1]

lemma pay_blind_no_allin (s : Game) (pid : Nat) (amount : Nat)
    (h : amount < (s.store pid).balance) :
    pay_blind s pid amount =
      ({ s with
          store := updStore s.store pid
            { s.store pid with
                balance := (s.store pid).balance - amount,
                cur_bet := (s.store pid).cur_bet + amount },
          pot := { s.pot with
              cur_bet := max s.pot.cur_bet amount,
              contrib := bumpContrib s.pot.contrib pid amount } }, false) := by
  have hmin : min amount (s.store pid).balance = amount := Nat.min_eq_left (le_of_lt h)
  simp only [pay_blind, hmin]
  simp [Nat.sub_eq_zero_iff_le]
  omega

lemma pay_blinds_many (s : Game) (now : Nat) (sp bp : Nat)
    (hih : s.in_hand = s.players)
    (hdelay : s.raise_delay = 0)
    (hn : 2 < s.players.length)
    (hsp : pyGet s.players ((s.dealer_index + 1) % (s.players.length : Int)) = some sp)
    (hbp : pyGet s.players ((s.dealer_index + 2) % (s.players.length : Int)) = some bp)
    (hnesb : sp ≠ bp)
    (hbs : s.blind < (s.store sp).balance)
    (hbb : s.blind * 2 < (s.store bp).balance) :
    ∃ s5, pay_blinds now s = some s5 ∧
      s5.turn_index = (s.dealer_index + 3) % (s.players.length : Int) ∧
      s5.first_bettor = (s.dealer_index + 1) % (s.players.length : Int) ∧
      s5.in_hand = s.players ∧ s5.players = s.players ∧ s5.state = s.state ∧
      s5.blind = s.blind ∧ s5.dealer_index = s.dealer_index ∧
      s5.deck = s.deck ∧ s5.shared_cards = s.shared_cards ∧
      s5.store sp = { s.store sp with
          balance := (s.store sp).balance - s.blind,
          cur_bet := (s.store sp).cur_bet + s.blind } ∧
      s5.store bp = { s.store bp with
          balance := (s.store bp).balance - s.blind * 2,
          cur_bet := (s.store bp).cur_bet + s.blind * 2 } ∧
      (∀ x, x ≠ sp → x ≠ bp → s5.store x = s.store x) ∧
      s5.pot.cur_bet = max (max s.pot.cur_bet s.blind) (s.blind * 2) ∧
      s5.pot.in_pot = s.pot.in_pot ∧ s5.pot.hand_players = s.pot.hand_players ∧
      s5.pot.contrib =
        bumpContrib (bumpContrib s.pot.contrib sp s.blind) bp (s.blind * 2) := by
  have hlen : s.players.length ≠ 0 := by omega
  have hbpsp : bp ≠ sp := Ne.symm hnesb
  simp only [pay_blinds, blinds_timer, hdelay, if_pos]
  rw [if_pos hn, hih]
  simp only [wrapIdx, if_neg hlen]
  rw [option_some_bind, hsp, option_some_bind, option_some_bind, hbp,
    option_some_bind, option_some_bind, option_some_bind]
  rw [pay_blind_no_allin]
  · simp only []
    rw [if_neg Bool.false_ne_true]
    rw [pay_blind_no_allin]
    · simp only []
      rw [if_neg Bool.false_ne_true]
      refine ⟨_, rfl, rfl, rfl, rfl, rfl, rfl, rfl, rfl, rfl, rfl,
        ?_, ?_, ?_, rfl, rfl, rfl, rfl⟩
      · simp [updStore, hnesb, hbpsp]
      · simp [updStore, hbpsp]
      · intro x hx1 hx2
        simp [updStore, hx1, hx2]
    · exact hbs
  · rw [pay_blind_no_allin]
    · simpa [updStore, hbpsp] using hbb
    · exact hbs

lemma pyGet_mem (l : List α) (i : Int) (a : α) (h : pyGet l i = some a) :
    a ∈ l := by
  unfold pyGet pyIdx at h
  split at h
  · split at h
    · simp only [option_some_bind] at h
      exact List.getElem?_mem h
    · simp at h
  · split at h
    · simp only [option_some_bind] at h
      exact List.getElem?_mem h
    · simp at h

lemma pyGet_nodup_ne (l : List α) (i j : Int) (x y : α) (hnd : l.Nodup)
    (hi0 : 0 ≤ i) (hj0 : 0 ≤ j) (hij : i ≠ j)
    (hx : pyGet l i = some x) (hy : pyGet l j = some y) : x ≠ y := by
  unfold pyGet pyIdx at hx hy
  rw [if_pos hi0] at hx
  rw [if_pos hj0] at hy
  by_cases hil : i < (l.length : Int)
  · by_cases hjl : j < (l.length : Int)
    · rw [if_pos hil] at hx
      rw [if_pos hjl] at hy
      simp only [option_some_bind] at hx hy
      have hxi : i.toNat < l.length := by omega
      have hyj : j.toNat < l.length := by omega
      rw [List.getElem?_eq_getElem hxi] at hx
      rw [List.getElem?_eq_getElem hyj] at hy
      injection hx with hx
      injection hy with hy
      intro hxy
      apply hij
      have heq : l[i.toNat] = l[j.toNat] := by rw [hx, hy, hxy]
      have := hnd.getElem_inj_iff.mp heq
      omega
    · rw [if_neg hjl] at hy
      simp at hy
  · rw [if_neg hil] at hx
    simp at hx

lemma round_over_false (s : Game) (pid : Nat) (hm : pid ∈ s.pot.in_pot)
    (hb : (s.store pid).balance ≠ 0) (hp : (s.store pid).placed_bet = false) :
    round_over s = false := by
  unfold round_over
  apply List.all_eq_false.mpr
  exact ⟨pid, hm, by simp [hb, hp]⟩

/-- C4: with three or more seated players and everyone able to cover the
blinds, deal_hands charges the small blind to the seat after the dealer (sp,
at index dealer+1 mod n), the big blind (twice the blind) to the seat after
that (bp, at dealer+2 mod n), leaves the pre-flop turn at dealer+3 mod n
(the seat after the big blind) and the post-flop first bettor at dealer+1
mod n (the seat after the dealer), touches nobody else's balance, and seeds
the pot with exactly three blinds. -/
theorem C4_blind_assignment (s : Game) (deckArg : List Nat) (now : Nat) (sp bp : Nat)
    (hn : 2 < s.players.length)
    (hnd : s.players.Nodup)
    (hdelay : s.raise_delay = 0)
    (hblind : 0 < s.blind)
    (hdeck : 2 * s.players.length ≤ deckArg.length)
    (hsp : pyGet s.players ((s.dealer_index + 1) % (s.players.length : Int)) = some sp)
    (hbp : pyGet s.players ((s.dealer_index + 2) % (s.players.length : Int)) = some bp)
    (hbal : ∀ pid ∈ s.players, s.blind * 2 < (s.store pid).balance) :
    ∃ s7, deal_hands deckArg now s = some s7 ∧
      s7.state = GameState.HANDS_DEALT ∧
      s7.in_hand = s.players ∧
      s7.turn_index = (s.dealer_index + 3) % (s.players.length : Int) ∧
      s7.first_bettor = (s.dealer_index + 1) % (s.players.length : Int) ∧
      (s7.store sp).balance = (s.store sp).balance - s.blind ∧
      (s7.store bp).balance = (s.store bp).balance - s.blind * 2 ∧
      (∀ x, x ≠ sp → x ≠ bp → (s7.store x).balance = (s.store x).balance) ∧
      s7.pot.value = s.blind * 3 := by
  have hlen : s.players.length ≠ 0 := by omega
  have hemod1 : (0:Int) ≤ (s.dealer_index + 1) % (s.players.length : Int) :=
    Int.emod_nonneg _ (by exact_mod_cast hlen)
  have hemod2 : (0:Int) ≤ (s.dealer_index + 2) % (s.players.length : Int) :=
    Int.emod_nonneg _ (by exact_mod_cast hlen)
  have hij : (s.dealer_index + 1) % (s.players.length : Int) ≠
      (s.dealer_index + 2) % (s.players.length : Int) := by
    intro h
    have h1 : (s.dealer_index + 2 - (s.dealer_index + 1)) % (s.players.length : Int) =
        ((s.dealer_index + 2) % (s.players.length : Int) -
          (s.dealer_index + 1) % (s.players.length : Int)) % (s.players.length : Int) :=
      Int.sub_emod _ _ _
    rw [← h] at h1
    simp at h1
    have h4 : (s.players.length : Int) ≤ 1 := Int.le_of_dvd one_pos h1
    omega
  have hnesb : sp ≠ bp :=
    pyGet_nodup_ne s.players _ _ sp bp hnd hemod1 hemod2 hij hsp hbp
  have hspm : sp ∈ s.players := pyGet_mem _ _ _ hsp
  have hbpm : bp ∈ s.players := pyGet_mem _ _ _ hbp
  obtain ⟨s1, hdl, q1, q2, q3, q4, q5, q6, q7, q8, q9, q10, q11, q12, q13, q14, q15⟩ :=
    deal_loop_spec s.players
      { s with deck := deckArg, shared_cards := [], in_hand := [] } hdeck
  simp only [] at q1 q2 q3 q4 q5 q6 q7 q8 q9 q10 q11 q12 q13 q14 q15
  simp only [List.nil_append] at q2
  simp only [deal_hands]
  rw [hdl, option_some_bind]
  rw [q8, if_pos hblind]
  obtain ⟨s5, hpb, r1, r2, r3, r4, r5, r6, r7, r8, r9, r10, r11, r12, r13, r14,
    r15, r16⟩ :=
    pay_blinds_many
      { s1 with state := GameState.HANDS_DEALT, pot := pot_new_hand s1.players }
      now sp bp
      (by simp only []; rw [q2, q1])
      (by simp only []; rw [q10]; exact hdelay)
      (by simp only []; rw [q1]; exact hn)
      (by simp only []; rw [q1, q4]; exact hsp)
      (by simp only []; rw [q1, q4]; exact hbp)
      hnesb
      (by simp only []; rw [q8, q13 sp]; have := hbal sp hspm; omega)
      (by simp only []; rw [q8, q13 bp]; exact hbal bp hbpm)
  simp only [] at r1 r2 r3 r4 r5 r6 r7 r8 r9 r10 r11 r12 r13 r14 r15 r16
  rw [q1, q4] at r1 r2
  rw [q1] at r3 r4
  rw [q8] at r6 r10 r11 r16 hpb
  rw [hpb, option_some_bind]
  have hplaced : (s1.store sp).placed_bet = false := (q14 sp hspm).2
  have hbalsp := hbal sp hspm
  have hbalbp := hbal bp hbpm
  have hro : round_over { s5 with turn_index := s5.turn_index - 1 } = false := by
    apply round_over_false _ sp
    · show sp ∈ s5.pot.in_pot
      rw [r14]
      simp only [pot_new_hand]
      rw [q1]
      exact hspm
    · show (s5.store sp).balance ≠ 0
      rw [r10]
      simp only []
      rw [q13 sp]
      omega
    · show (s5.store sp).placed_bet = false
      rw [r10]
      simp only []
      exact hplaced
  simp only [next_turn]
  rw [hro, if_neg Bool.false_ne_true]
  have hturn : s5.turn_index - 1 + 1 = (s.dealer_index + 3) % (s.players.length : Int) := by
    rw [r1]
    ring
  rw [hturn, r3]
  have hb0 : (0:Int) ≤ (s.dealer_index + 3) % (s.players.length : Int) :=
    Int.emod_nonneg _ (by exact_mod_cast hlen)
  have hb1 : (s.dealer_index + 3) % (s.players.length : Int) < (s.players.length : Int) :=
    Int.emod_lt_of_pos _ (by exact_mod_cast Nat.pos_of_ne_zero hlen)
  simp only [wrapIdx, if_neg hlen]
  rw [option_some_bind]
  rw [Int.emod_emod_of_dvd _ dvd_rfl]
  obtain ⟨a, ha⟩ := pyGet_some_of_bounds s.players _ hb0 hb1
  rw [ha, option_some_bind]
  refine ⟨_, rfl, r5, rfl, rfl, r2, ?_, ?_, ?_, ?_⟩
  · rw [r10]
    simp only []
    rw [q13 sp]
  · rw [r11]
    simp only []
    rw [q13 bp]
  · intro x hx1 hx2
    rw [r12 x hx1 hx2, q13 x]
  · show s5.pot.value = s.blind * 3
    unfold PotManager.value
    rw [r15, r16]
    simp only [pot_new_hand]
    rw [q1]
    rw [sum_map_bump _ _ bp _ hnd hbpm, sum_map_bump _ _ sp _ hnd hspm]
    simp
    ring

lemma pay_blinds_two (s : Game) (now : Nat) (sp bp : Nat)
    (hdelay : s.raise_delay = 0)
    (hn : ¬ 2 < s.players.length)
    (hsp : pyGet s.players s.dealer_index = some sp)
    (hbp : pyGet s.players (s.dealer_index - 1) = some bp)
    (hnesb : sp ≠ bp)
    (hbs : s.blind < (s.store sp).balance)
    (hbb : s.blind * 2 < (s.store bp).balance) :
    ∃ s5, pay_blinds now s = some s5 ∧
      s5.turn_index = s.dealer_index ∧
      s5.first_bettor = s.dealer_index - 1 ∧
      s5.in_hand = s.in_hand ∧ s5.players = s.players ∧ s5.state = s.state ∧
      s5.blind = s.blind ∧ s5.dealer_index = s.dealer_index ∧
      s5.deck = s.deck ∧ s5.shared_cards = s.shared_cards ∧
      s5.store sp = { s.store sp with
          balance := (s.store sp).balance - s.blind,
          cur_bet := (s.store sp).cur_bet + s.blind } ∧
      s5.store bp = { s.store bp with
          balance := (s.store bp).balance - s.blind * 2,
          cur_bet := (s.store bp).cur_bet + s.blind * 2 } ∧
      (∀ x, x ≠ sp → x ≠ bp → s5.store x = s.store x) ∧
      s5.pot.cur_bet = max (max s.pot.cur_bet s.blind) (s.blind * 2) ∧
      s5.pot.in_pot = s.pot.in_pot ∧ s5.pot.hand_players = s.pot.hand_players ∧
      s5.pot.contrib =
        bumpContrib (bumpContrib s.pot.contrib sp s.blind) bp (s.blind * 2) := by
  have hbpsp : bp ≠ sp := Ne.symm hnesb
  simp only [pay_blinds, blinds_timer, hdelay, if_pos]
  rw [if_neg hn]
  rw [hsp, option_some_bind, hbp, option_some_bind]
  rw [pay_blind_no_allin]
  · simp only []
    rw [if_neg Bool.false_ne_true]
    rw [pay_blind_no_allin]
    · simp only []
      rw [if_neg Bool.false_ne_true]
      refine ⟨_, rfl, rfl, rfl, rfl, rfl, rfl, rfl, rfl, rfl, rfl,
        ?_, ?_, ?_, rfl, rfl, rfl, rfl⟩
      · simp [updStore, hnesb, hbpsp]
      · simp [updStore, hbpsp]
      · intro x hx1 hx2
        simp [updStore, hx1, hx2]
    · exact hbs
  · rw [pay_blind_no_allin]
    · simpa [updStore, hbpsp] using hbb
    · exact hbs

lemma bind_guard_eq_some (x : Option β) (v r : α)
    (h : (do let _ ← x; some v) = some r) : r = v := by
  cases x with
  | none => simp at h
  | some a =>
    rw [option_some_bind] at h
    exact ((Option.some.injEq _ _).mp h).symm

lemma draw_shared_fields : ∀ (k : Nat) (s s2 : Game), draw_shared s k = some s2 →
    s2.first_bettor = s.first_bettor ∧ s2.in_hand = s.in_hand ∧
    s2.store = s.store ∧ s2.pot = s.pot ∧
    s2.players = s.players ∧ s2.turn_index = s.turn_index ∧
    s2.dealer_index = s.dealer_index ∧ s2.ranks = s.ranks := by
  intro k
  induction k with
  | zero =>
    intro s s2 h
    simp only [draw_shared] at h
    injection h with h
    subst h
    exact ⟨rfl, rfl, rfl, rfl, rfl, rfl, rfl, rfl⟩
  | succ k ih =>
    intro s s2 h
    simp only [draw_shared, draw] at h
    cases hd : s.deck with
    | nil =>
      rw [hd] at h
      simp at h
    | cons c rest =>
      rw [hd] at h
      simp only [option_some_bind] at h
      have hp := ih _ _ h
      exact ⟨hp.1, hp.2.1, hp.2.2.1, hp.2.2.2.1, hp.2.2.2.2.1, hp.2.2.2.2.2.1,
        hp.2.2.2.2.2.2.1, hp.2.2.2.2.2.2.2⟩

lemma next_round_common_spec (s s2 : Game) (h : next_round_common s = some s2) :
    s2.turn_index = s.first_bettor ∧ s2.in_hand = s.in_hand := by
  unfold next_round_common at h
  have h2 := bind_guard_eq_some _ _ _ h
  subst h2
  exact ⟨rfl, rfl⟩

lemma next_round_sets_first_bettor (t t2 : Game)
    (hst : t.state = GameState.HANDS_DEALT ∨ t.state = GameState.FLOP_DEALT ∨
      t.state = GameState.TURN_DEALT)
    (h : next_round t = some t2) : t2.turn_index = t.first_bettor := by
  rcases hst with h1 | h1 | h1
  · simp only [next_round, h1] at h
    cases hds : draw_shared t 3 with
    | none => rw [hds] at h; simp at h
    | some s1 =>
      rw [hds, option_some_bind] at h
      rw [(next_round_common_spec _ _ h).1]
      exact (draw_shared_fields 3 t s1 hds).1
  · simp only [next_round, h1] at h
    cases hds : draw_shared t 1 with
    | none => rw [hds] at h; simp at h
    | some s1 =>
      rw [hds, option_some_bind] at h
      rw [(next_round_common_spec _ _ h).1]
      exact (draw_shared_fields 1 t s1 hds).1
  · simp only [next_round, h1] at h
    cases hds : draw_shared t 1 with
    | none => rw [hds] at h; simp at h
    | some s1 =>
      rw [hds, option_some_bind] at h
      rw [(next_round_common_spec _ _ h).1]
      exact (draw_shared_fields 1 t s1 hds).1

/-- C3: heads-up blind assignment.  With exactly two seated players who can
cover the blinds, after deal_hands the dealer (sp, the seat at the dealer
index) has paid the small blind and is the player the turn index designates
(acts first pre-flop), the non-dealer (bp, at index dealer-1 under Python
indexing) has paid the big blind, the post-flop first bettor index is
dealer-1 which designates the non-dealer, and next_round always resets the
turn index to the first bettor, so the non-dealer acts first in every
post-flop round. -/
theorem C3_headsup_blinds (s : Game) (deckArg : List Nat) (now : Nat) (x y sp bp : Nat)
    (hpl : s.players = [x, y])
    (hxy : x ≠ y)
    (hd : s.dealer_index = 0 ∨ s.dealer_index = 1)
    (hdelay : s.raise_delay = 0)
    (hblind : 0 < s.blind)
    (hdeck : 4 ≤ deckArg.length)
    (hsp : pyGet s.players s.dealer_index = some sp)
    (hbp : pyGet s.players (s.dealer_index - 1) = some bp)
    (hbal : ∀ pid ∈ s.players, s.blind * 2 < (s.store pid).balance) :
    ∃ s7, deal_hands deckArg now s = some s7 ∧
      s7.state = GameState.HANDS_DEALT ∧
      s7.in_hand = s.players ∧
      s7.turn_index = s.dealer_index ∧
      s7.first_bettor = s.dealer_index - 1 ∧
      pyGet s7.in_hand s7.turn_index = some sp ∧
      pyGet s7.in_hand s7.first_bettor = some bp ∧
      sp ≠ bp ∧
      (s7.store sp).balance = (s.store sp).balance - s.blind ∧
      (s7.store bp).balance = (s.store bp).balance - s.blind * 2 ∧
      (∀ t t2 : Game, (t.state = GameState.HANDS_DEALT ∨
          t.state = GameState.FLOP_DEALT ∨ t.state = GameState.TURN_DEALT) →
        next_round t = some t2 → t2.turn_index = t.first_bettor) := by
  have hid2 : (s.dealer_index = 0 ∧ sp = x ∧ bp = y) ∨
      (s.dealer_index = 1 ∧ sp = y ∧ bp = x) := by
    rcases hd with h | h
    · rw [hpl, h] at hsp hbp
      simp [pyGet, pyIdx] at hsp hbp
      exact Or.inl ⟨h, hsp.symm, hbp.symm⟩
    · rw [hpl, h] at hsp hbp
      simp [pyGet, pyIdx] at hsp hbp
      exact Or.inr ⟨h, hsp.symm, hbp.symm⟩
  have hnesb : sp ≠ bp := by
    rcases hid2 with ⟨_, h1, h2⟩ | ⟨_, h1, h2⟩ <;> subst h1 <;> subst h2
    · exact hxy
    · exact hxy.symm
  have hspm : sp ∈ s.players := pyGet_mem _ _ _ hsp
  have hbpm : bp ∈ s.players := pyGet_mem _ _ _ hbp
  have hdeck2 : 2 * s.players.length ≤ deckArg.length := by
    rw [hpl]
    simpa using hdeck
  obtain ⟨s1, hdl, q1, q2, q3, q4, q5, q6, q7, q8, q9, q10, q11, q12, q13, q14, q15⟩ :=
    deal_loop_spec s.players
      { s with deck := deckArg, shared_cards := [], in_hand := [] } hdeck2
  simp only [] at q1 q2 q3 q4 q5 q6 q7 q8 q9 q10 q11 q12 q13 q14 q15
  simp only [List.nil_append] at q2
  simp only [deal_hands]
  rw [hdl, option_some_bind]
  rw [q8, if_pos hblind]
  obtain ⟨s5, hpb, r1, r2, r3, r4, r5, r6, r7, r8, r9, r10, r11, r12, r13, r14,
    r15, r16⟩ :=
    pay_blinds_two
      { s1 with state := GameState.HANDS_DEALT, pot := pot_new_hand s1.players }
      now sp bp
      (by simp only []; rw [q10]; exact hdelay)
      (by simp only []; rw [q1, hpl]; simp)
      (by simp only []; rw [q1, q4]; exact hsp)
      (by simp only []; rw [q1, q4]; exact hbp)
      hnesb
      (by simp only []; rw [q8, q13 sp]; have := hbal sp hspm; omega)
      (by simp only []; rw [q8, q13 bp]; exact hbal bp hbpm)
  simp only [] at r1 r2 r3 r4 r5 r6 r7 r8 r9 r10 r11 r12 r13 r14 r15 r16
  rw [q4] at r1 r2
  rw [q2] at r3
  rw [q1] at r4
  rw [q8] at r6 r10 r11 r16 hpb
  rw [hpb, option_some_bind]
  have hplaced : (s1.store sp).placed_bet = false := (q14 sp hspm).2
  have hbalsp := hbal sp hspm
  have hro : round_over { s5 with turn_index := s5.turn_index - 1 } = false := by
    apply round_over_false _ sp
    · show sp ∈ s5.pot.in_pot
      rw [r14]
      simp only [pot_new_hand]
      rw [q1]
      exact hspm
    · show (s5.store sp).balance ≠ 0
      rw [r10]
      simp only []
      rw [q13 sp]
      omega
    · show (s5.store sp).placed_bet = false
      rw [r10]
      simp only []
      exact hplaced
  simp only [next_turn]
  rw [hro, if_neg Bool.false_ne_true]
  have hlen2 : s5.in_hand.length = 2 := by rw [r3, hpl]; rfl
  have hturn : s5.turn_index - 1 + 1 = s.dealer_index := by
    rw [r1]
    ring
  rw [hturn, hlen2]
  have hdmod : s.dealer_index % ((2:Nat) : Int) = s.dealer_index := by
    rcases hd with h | h <;> rw [h] <;> decide
  simp only [wrapIdx]
  rw [if_neg (by omega), option_some_bind, hdmod]
  have hget : pyGet s5.in_hand s.dealer_index = some sp := by
    rw [r3, hpl]
    rcases hid2 with ⟨h, h1, h2⟩ | ⟨h, h1, h2⟩ <;> subst h1 <;> subst h2 <;>
      rw [h] <;> rfl
  rw [hget, option_some_bind]
  refine ⟨_, rfl, r5, r3, rfl, r2, ?_, ?_, hnesb, ?_, ?_,
    fun t t2 hst hnr => next_round_sets_first_bettor t t2 hst hnr⟩
  · show pyGet s5.in_hand s.dealer_index = some sp
    exact hget
  · show pyGet s5.in_hand s5.first_bettor = some bp
    rw [r2, r3, hpl]
    rcases hid2 with ⟨h, h1, h2⟩ | ⟨h, h1, h2⟩ <;> subst h1 <;> subst h2 <;>
      rw [h] <;> rfl
  · rw [r10]
    simp only []
    rw [q13 sp]
  · rw [r11]
    simp only []
    rw [q13 bp]

-- The spec scenario for C4: three players with 500 each, blind 5, dealer 0.
def c4_state : Game :=
  { state := GameState.NO_HANDS, players := [0, 1, 2], in_hand := [],
    dealer_index := 0, first_bettor := 0, turn_index := -1,
    shared_cards := [], deck := [],
    pot := pot_new_hand [0, 1, 2],
    store := fun _ => { balance := 500, cur_bet := 0, placed_bet := false },
    blind := 5, starting_blind := 5, buy_in := 500, raise_delay := 0,
    last_raise := none, ranks := fun _ => 0 }

def c4_result : Game :=
  (deal_hands [10, 11, 12, 13, 14, 15] 0 c4_state).get (by decide)

/-- C4 witness: in the 3-player scenario with balances 500 and blind 5 and
dealer 0, after deal_hands seat 1 holds 495 (small blind), seat 2 holds 490
(big blind), the turn index designates seat 0 and the pot value is 15. -/
theorem C4_blind_assignment_witness :
    (∃ s7, deal_hands [10, 11, 12, 13, 14, 15] 0 c4_state = some s7 ∧
      s7.state = GameState.HANDS_DEALT ∧
      s7.in_hand = c4_state.players ∧
      s7.turn_index = (c4_state.dealer_index + 3) % (c4_state.players.length : Int) ∧
      s7.first_bettor = (c4_state.dealer_index + 1) % (c4_state.players.length : Int) ∧
      (s7.store 1).balance = (c4_state.store 1).balance - c4_state.blind ∧
      (s7.store 2).balance = (c4_state.store 2).balance - c4_state.blind * 2 ∧
      (∀ x, x ≠ 1 → x ≠ 2 → (s7.store x).balance = (c4_state.store x).balance) ∧
      s7.pot.value = c4_state.blind * 3) ∧
    (c4_result.store 1).balance = 495 ∧ (c4_result.store 2).balance = 490 ∧
    c4_result.turn_index = 0 ∧ pyGet c4_result.in_hand c4_result.turn_index = some 0 ∧
    c4_result.pot.value = 15 :=
  ⟨C4_blind_assignment c4_state [10, 11, 12, 13, 14, 15] 0 1 2 (by decide)
      (by decide) rfl (by decide) (by decide) (by decide) (by decide) (by decide),
    by decide, by decide, by decide, by decide, by decide⟩

-- A heads-up table for C3: players 0 and 1 with 500 each, blind 5, dealer 0.
def c3_state : Game :=
  { c4_state with players := [0, 1], pot := pot_new_hand [0, 1] }

def c3_result : Game :=
  (deal_hands [10, 11, 12, 13] 0 c3_state).get (by decide)

/-- C3 witness: in the heads-up scenario with dealer 0, after deal_hands the
dealer (player 0) has paid the small blind of 5 and acts first (the turn
index designates them), player 1 has paid the big blind of 10, and the
post-flop first bettor index is -1, which designates player 1, the
non-dealer, under Python list indexing. -/
theorem C3_headsup_blinds_witness :
    (∃ s7, deal_hands [10, 11, 12, 13] 0 c3_state = some s7 ∧
      s7.state = GameState.HANDS_DEALT ∧
      s7.in_hand = c3_state.players ∧
      s7.turn_index = c3_state.dealer_index ∧
      s7.first_bettor = c3_state.dealer_index - 1 ∧
      pyGet s7.in_hand s7.turn_index = some 0 ∧
      pyGet s7.in_hand s7.first_bettor = some 1 ∧
      (0 : Nat) ≠ 1 ∧
      (s7.store 0).balance = (c3_state.store 0).balance - c3_state.blind ∧
      (s7.store 1).balance = (c3_state.store 1).balance - c3_state.blind * 2 ∧
      (∀ t t2 : Game, (t.state = GameState.HANDS_DEALT ∨
          t.state = GameState.FLOP_DEALT ∨ t.state = GameState.TURN_DEALT) →
        next_round t = some t2 → t2.turn_index = t.first_bettor)) ∧
    (c3_result.store 0).balance = 495 ∧ (c3_result.store 1).balance = 490 ∧
    c3_result.turn_index = 0 ∧ c3_result.first_bettor = -1 :=
  ⟨C3_headsup_blinds c3_state [10, 11, 12, 13] 0 0 1 0 1 rfl (by decide)
      (Or.inl rfl) rfl (by decide) (by decide) (by decide) (by decide) (by decide),
    by decide, by decide, by decide, by decide⟩

lemma elimAux_all_pos (store : Nat → Player) :
    ∀ (todo done : List Nat) (dealer : Int),
      (∀ p ∈ todo, 0 < (store p).balance) →
      elimAux store done todo dealer = (done ++ todo, dealer, false) := by
  intro todo
  induction todo with
  | nil => intro done dealer _; simp [elimAux]
  | cons pid rest ih =>
    intro done dealer h
    simp only [elimAux]
    rw [if_pos (h pid (by simp))]
    rw [ih (done ++ [pid]) dealer (fun p hp => h p (by simp [hp]))]
    simp

lemma elimAux_filter (store : Nat → Player) :
    ∀ (todo done : List Nat) (dealer : Int),
      (∀ p ∈ done, 0 < (store p).balance) →
      1 ≤ (done ++ todo).countP (fun p => decide (0 < (store p).balance)) →
      2 ≤ (done ++ todo).length →
      (elimAux store done todo dealer).1 =
        (done ++ todo).filter (fun p => decide (0 < (store p).balance)) ∧
      ((elimAux store done todo dealer).2.2 = true ↔
        (elimAux store done todo dealer).1.length = 1) := by
  intro todo
  induction todo with
  | nil =>
    intro done dealer hdp hcp hlen
    simp only [elimAux, List.append_nil] at *
    refine ⟨(List.filter_eq_self.mpr (fun a ha => by simpa using hdp a ha)).symm, ?_, ?_⟩
    · intro h
      exact absurd h (by simp)
    · intro h
      omega
  | cons pid rest ih =>
    intro done dealer hdp hcp hlen
    simp only [elimAux]
    by_cases hpos : 0 < (store pid).balance
    · rw [if_pos hpos]
      have hassoc : (done ++ [pid]) ++ rest = done ++ pid :: rest := by simp
      have hres := ih (done ++ [pid]) dealer
        (by intro p hp
            rcases List.mem_append.mp hp with h | h
            · exact hdp p h
            · simp at h
              subst h
              exact hpos)
        (by rw [hassoc]; exact hcp)
        (by rw [hassoc]; exact hlen)
      rw [hassoc] at hres
      exact hres
    · rw [if_neg hpos]
      by_cases hone : (done ++ rest).length = 1
      · rw [if_pos hone]
        refine ⟨?_, by simp [hone]⟩
        rw [List.filter_append, List.filter_cons_of_neg (by simpa using hpos)]
        cases done with
        | nil =>
          simp only [List.nil_append] at hone ⊢
          obtain ⟨r, hr⟩ := List.length_eq_one.mp hone
          subst hr
          have hposr : 0 < (store r).balance := by
            simp only [List.nil_append, List.countP_cons, List.countP_nil] at hcp
            by_contra hc
            simp [hpos, hc] at hcp
          rw [List.filter_cons_of_pos (by simpa using hposr), List.filter_nil]
          rfl
        | cons d ds =>
          have hds : ds = [] ∧ rest = [] := by
            simp only [List.length_append, List.length_cons] at hone
            exact ⟨List.length_eq_zero.mp (by omega), List.length_eq_zero.mp (by omega)⟩
          obtain ⟨hds1, hds2⟩ := hds
          subst hds1
          subst hds2
          rw [List.filter_eq_self.mpr (fun a ha => by simpa using hdp a ha)]
          simp
      · rw [if_neg hone]
        have hres := ih done (if (done.length : Int) ≤ dealer then dealer - 1 else dealer)
          hdp
          (by have h1 : (done ++ pid :: rest).countP
                  (fun p => decide (0 < (store p).balance)) =
                (done ++ rest).countP (fun p => decide (0 < (store p).balance)) := by
                simp only [List.countP_append, List.countP_cons]
                simp [hpos]
              rw [h1] at hcp
              exact hcp)
          (by simp only [List.length_append, List.length_cons] at hlen hone ⊢
              omega)
        refine ⟨?_, hres.2⟩
        rw [hres.1]
        rw [List.filter_append, List.filter_append,
          List.filter_cons_of_neg (by simpa using hpos)]

lemma credit_fold (payf : Entrant → Nat) :
    ∀ (es : List Entrant) (f : Nat → Player),
      (es.map Entrant.pid).Nodup →
      (∀ e ∈ es, ((es.foldl (fun g e2 => updStore g e2.pid
          { g e2.pid with balance := (g e2.pid).balance + payf e2 }) f) e.pid).balance
        = (f e.pid).balance + payf e) ∧
      (∀ x, x ∉ es.map Entrant.pid →
        (es.foldl (fun g e2 => updStore g e2.pid
          { g e2.pid with balance := (g e2.pid).balance + payf e2 }) f) x = f x) := by
  intro es
  induction es with
  | nil =>
    intro f _
    exact ⟨fun e he => absurd he (List.not_mem_nil e), fun x _ => rfl⟩
  | cons a es ih =>
    intro f hnd
    simp only [List.map_cons, List.nodup_cons] at hnd
    obtain ⟨hna, hnd2⟩ := hnd
    constructor
    · intro e he
      rcases List.mem_cons.mp he with rfl | he2
      · rw [List.foldl_cons]
        rw [(ih _ hnd2).2 e.pid hna]
        simp [updStore]
      · rw [List.foldl_cons]
        rw [(ih _ hnd2).1 e he2]
        have hne : e.pid ≠ a.pid := by
          intro h
          apply hna
          rw [← h]
          exact List.mem_map_of_mem Entrant.pid he2
        simp [updStore, hne]
    · intro x hx
      rw [List.foldl_cons]
      rw [(ih _ hnd2).2 x (fun h => hx (by simp [h]))]
      have hxa : x ≠ a.pid := fun h => hx (by simp [h])
      simp [updStore, hxa]

lemma entrants_pids (s : Game) :
    (entrants_of s).map Entrant.pid = s.pot.hand_players := by
  unfold entrants_of
  rw [List.map_map]
  exact List.map_id _

lemma credit_winners_balance (s : Game) (hnd : s.pot.hand_players.Nodup) :
    ∀ e ∈ entrants_of s,
      ((credit_winners s).store e.pid).balance =
        (s.store e.pid).balance + payout (entrants_of s) e := by
  intro e he
  exact (credit_fold (payout (entrants_of s)) (entrants_of s) s.store
    (by rw [entrants_pids]; exact hnd)).1 e he

/-- C7: showdown elimination.  After the payouts are credited (the state
credit_winners s1, s1 being the state with the board completed), the
surviving seats are exactly the players with a positive balance, in order;
if exactly one seat survives the state becomes NO_GAME (that survivor is
the declared winner); with two or more survivors the state becomes NO_HANDS
and the dealer index is a valid seat; and when nobody is eliminated the
dealer rotates exactly one seat.  The side conditions are those of a real
showdown: at least two seated players, and somebody ends with chips. -/
theorem C7_showdown_elimination (s s1 s2 : Game)
    (hdr : draw_shared s (5 - s.shared_cards.length) = some s1)
    (hsh : showdown s = some s2)
    (h2 : 2 ≤ s.players.length)
    (hpos : ∃ p ∈ s.players, 0 < ((credit_winners s1).store p).balance) :
    (s2.players = s.players.filter
        (fun p => decide (0 < ((credit_winners s1).store p).balance))) ∧
    (∀ p ∈ s2.players, ((credit_winners s1).store p).balance ≠ 0) ∧
    (∀ p, s2.store p = (credit_winners s1).store p) ∧
    (s2.players.length = 1 → s2.state = GameState.NO_GAME) ∧
    (2 ≤ s2.players.length → s2.state = GameState.NO_HANDS ∧
      0 ≤ s2.dealer_index ∧ s2.dealer_index < (s2.players.length : Int)) ∧
    ((∀ p ∈ s.players, 0 < ((credit_winners s1).store p).balance) →
      s2.players = s.players ∧ s2.state = GameState.NO_HANDS ∧
      s2.dealer_index = (s.dealer_index + 1) % (s.players.length : Int)) ∧
    (s.pot.hand_players.Nodup → ∀ e ∈ entrants_of s1,
      (s2.store e.pid).balance =
        (s.store e.pid).balance + payout (entrants_of s1) e) := by
  obtain ⟨d1, d2, d3, d4, d5, d6, d7, d8⟩ := draw_shared_fields _ _ _ hdr
  simp only [showdown] at hsh
  rw [hdr, option_some_bind] at hsh
  set t := credit_winners s1 with ht
  have htp : t.players = s.players := by rw [ht]; show s1.players = s.players; exact d5
  have htd : t.dealer_index = s.dealer_index := by
    rw [ht]; show s1.dealer_index = s.dealer_index; exact d7
  simp only [elim_phase] at hsh
  rw [htp, htd] at hsh
  obtain ⟨hfil, hflag⟩ := elimAux_filter t.store s.players [] s.dealer_index
    (by intro p hp; simp at hp)
    (by simp only [List.nil_append]
        apply List.countP_pos_iff.mpr
        obtain ⟨p, hp1, hp2⟩ := hpos
        exact ⟨p, hp1, by simpa using hp2⟩)
    (by simpa using h2)
  simp only [List.nil_append] at hfil
  set r := elimAux t.store [] s.players s.dealer_index with hr
  by_cases hf : r.2.2 = true
  · rw [if_pos hf] at hsh
    injection hsh with hsh
    subst hsh
    have hlen1 : r.1.length = 1 := hflag.mp hf
    refine ⟨hfil, ?_, fun p => rfl, fun _ => rfl, ?_, ?_, ?_⟩
    · intro p hp
      have hp2 : p ∈ List.filter (fun p => decide (0 < (t.store p).balance)) s.players := by
        rw [← hfil]
        exact hp
      have := List.of_mem_filter hp2
      simp at this
      omega
    · intro hge2
      have hge : 2 ≤ r.1.length := hge2
      omega
    · intro hall
      exfalso
      have hap := elimAux_all_pos t.store s.players [] s.dealer_index
        (fun p hp => hall p hp)
      rw [← hr] at hap
      rw [hap] at hf
      simp at hf
    · intro hndh e he
      show (t.store e.pid).balance = (s.store e.pid).balance + payout (entrants_of s1) e
      rw [ht, credit_winners_balance s1 (by rw [d4]; exact hndh) e he, d3]
  · rw [if_neg hf] at hsh
    unfold next_dealer wrapIdx at hsh
    simp only [] at hsh
    have hfl : r.1.length ≠ 0 := by
      rw [hfil]
      intro hc
      obtain ⟨p, hp1, hp2⟩ := hpos
      have hmem : p ∈ List.filter (fun p => decide (0 < (t.store p).balance)) s.players :=
        List.mem_filter.mpr ⟨hp1, by simpa using hp2⟩
      rw [List.length_eq_zero.mp hc] at hmem
      simp at hmem
    rw [if_neg hfl, option_some_bind] at hsh
    have hb0 : (0:Int) ≤ (r.2.1 + 1) % (r.1.length : Int) :=
      Int.emod_nonneg _ (by exact_mod_cast hfl)
    have hb1 : (r.2.1 + 1) % (r.1.length : Int) < (r.1.length : Int) :=
      Int.emod_lt_of_pos _ (by exact_mod_cast Nat.pos_of_ne_zero hfl)
    obtain ⟨a, ha⟩ := pyGet_some_of_bounds r.1 _ hb0 hb1
    rw [option_some_bind] at hsh
    unfold dealer_of at hsh
    simp only [ha] at hsh
    rw [option_some_bind] at hsh
    injection hsh with hsh
    subst hsh
    refine ⟨hfil, ?_, fun p => rfl, ?_, ?_, ?_, ?_⟩
    · intro p hp
      have hp2 : p ∈ List.filter (fun p => decide (0 < (t.store p).balance)) s.players := by
        rw [← hfil]
        exact hp
      have := List.of_mem_filter hp2
      simp at this
      omega
    · intro h1
      exact absurd (hflag.mpr h1) hf
    · intro _
      exact ⟨rfl, hb0, hb1⟩
    · intro hall
      have hap := elimAux_all_pos t.store s.players [] s.dealer_index
        (fun p hp => hall p hp)
      rw [← hr] at hap
      simp only [List.nil_append] at hap
      refine ⟨?_, rfl, ?_⟩
      · show r.1 = s.players
        rw [hap]
      · show (r.2.1 + 1) % (r.1.length : Int) = (s.dealer_index + 1) % (s.players.length : Int)
        rw [hap]
    · intro hndh e he
      show (t.store e.pid).balance = (s.store e.pid).balance + payout (entrants_of s1) e
      rw [ht, credit_winners_balance s1 (by rw [d4]; exact hndh) e he, d3]

-- A river showdown: players 0 and 2 are all in (balance 0) having
-- contributed 50 and 100, player 1 holds 200 more and the best hand.
def c7_state : Game :=
  { state := GameState.RIVER_DEALT, players := [0, 1, 2], in_hand := [1],
    dealer_index := 0, first_bettor := 0, turn_index := 0,
    shared_cards := [1, 2, 3, 4, 5], deck := [],
    pot := { in_pot := [0, 1, 2], cur_bet := 0, hand_players := [0, 1, 2],
             contrib := fun p => if p = 0 then 50 else if p ≤ 2 then 100 else 0 },
    store := fun p =>
      if p = 1 then { balance := 200, cur_bet := 0, placed_bet := true }
      else { balance := 0, cur_bet := 0, placed_bet := true },
    blind := 5, starting_blind := 5, buy_in := 500, raise_delay := 0,
    last_raise := none, ranks := fun p => if p = 1 then 9 else p }

def c7_result : Game := (showdown c7_state).get (by decide)

/-- C7 witness: in the concrete showdown player 1 wins the whole 250 pot,
players 0 and 2 end on balance 0 and are both removed, exactly one seat
remains, and the game ends in NO_GAME with player 1 as the survivor
holding 450. -/
theorem C7_showdown_elimination_witness :
    ((c7_result.players = c7_state.players.filter
        (fun p => decide (0 < ((credit_winners c7_state).store p).balance))) ∧
      (∀ p ∈ c7_result.players, ((credit_winners c7_state).store p).balance ≠ 0) ∧
      (∀ p, c7_result.store p = (credit_winners c7_state).store p) ∧
      (c7_result.players.length = 1 → c7_result.state = GameState.NO_GAME) ∧
      (2 ≤ c7_result.players.length → c7_result.state = GameState.NO_HANDS ∧
        0 ≤ c7_result.dealer_index ∧
        c7_result.dealer_index < (c7_result.players.length : Int)) ∧
      ((∀ p ∈ c7_state.players, 0 < ((credit_winners c7_state).store p).balance) →
        c7_result.players = c7_state.players ∧
        c7_result.state = GameState.NO_HANDS ∧
        c7_result.dealer_index =
          (c7_state.dealer_index + 1) % (c7_state.players.length : Int)) ∧
      (c7_state.pot.hand_players.Nodup → ∀ e ∈ entrants_of c7_state,
        (c7_result.store e.pid).balance =
          (c7_state.store e.pid).balance + payout (entrants_of c7_state) e)) ∧
    c7_result.players = [1] ∧ c7_result.state = GameState.NO_GAME ∧
    (c7_result.store 1).balance = 450 :=
  ⟨C7_showdown_elimination c7_state c7_state c7_result rfl
      (Option.some_get _).symm (by decide) (by decide),
    by decide, by decide, by decide⟩

-- The C6 invariant, under Python indexing: in a live betting state the turn
-- index designates a member of in_hand (possibly via a negative index), and
-- in any state with a live hand or between hands the dealer index is a
-- plain valid position of the seating list.
def GameInv (s : Game) : Prop :=
  (active_hand s.state = true → (pyGet s.in_hand s.turn_index).isSome = true) ∧
  ((active_hand s.state = true ∨ s.state = GameState.NO_HANDS) →
    0 ≤ s.dealer_index ∧ s.dealer_index < (s.players.length : Int))

instance (s : Game) : Decidable (GameInv s) := by
  unfold GameInv
  infer_instance

lemma active_hand_iff (st : GameState) :
    active_hand st = true ↔ st = GameState.HANDS_DEALT ∨ st = GameState.FLOP_DEALT ∨
      st = GameState.TURN_DEALT ∨ st = GameState.RIVER_DEALT := by
  cases st <;> simp [active_hand]

lemma wrapIdx_some (i : Int) (n : Nat) (t : Int) (h : wrapIdx i n = some t) :
    n ≠ 0 ∧ t = i % (n : Int) := by
  unfold wrapIdx at h
  by_cases hn : n = 0
  · rw [if_pos hn] at h
    simp at h
  · rw [if_neg hn] at h
    injection h with h
    exact ⟨hn, h.symm⟩

lemma deal_loop_fields : ∀ (ps : List Nat) (s s1 : Game),
    deal_loop s ps = some s1 →
    s1.players = s.players ∧ s1.dealer_index = s.dealer_index ∧
    s1.state = s.state := by
  intro ps
  induction ps with
  | nil =>
    intro s s1 h
    simp only [deal_loop] at h
    injection h with h
    subst h
    exact ⟨rfl, rfl, rfl⟩
  | cons pid rest ih =>
    intro s s1 h
    simp only [deal_loop, draw] at h
    cases hd : s.deck with
    | nil =>
      rw [hd] at h
      simp at h
    | cons c r2 =>
      rw [hd] at h
      cases r2 with
      | nil =>
        simp only [option_some_bind] at h
        simp at h
      | cons c2 r3 =>
        simp only [option_some_bind] at h
        have h3 := ih _ _ h
        exact h3

lemma bind_guard_inv (x : Option γ) (v : α) (r : α)
    (h : (do let _ ← x; some v) = some r) : r = v ∧ ∃ a, x = some a := by
  cases x with
  | none => simp at h
  | some a =>
    rw [option_some_bind] at h
    exact ⟨((Option.some.injEq _ _).mp h).symm, a, rfl⟩

lemma blinds_timer_fields (now : Nat) (s : Game) :
    (blinds_timer now s).state = s.state ∧
    (blinds_timer now s).players = s.players ∧
    (blinds_timer now s).dealer_index = s.dealer_index ∧
    (blinds_timer now s).in_hand = s.in_hand := by
  by_cases h : s.raise_delay = 0
  · rw [blinds_timer, if_pos h]
    exact ⟨rfl, rfl, rfl, rfl⟩
  · cases hlr : s.last_raise with
    | none =>
      rw [blinds_timer, if_neg h, hlr]
      exact ⟨rfl, rfl, rfl, rfl⟩
    | some t =>
      by_cases h2 : s.raise_delay < now - t
      · simp only [blinds_timer, if_neg h, hlr, if_pos h2]
        exact ⟨trivial, trivial, trivial, trivial⟩
      · simp only [blinds_timer, if_neg h, hlr, if_neg h2]
        exact ⟨trivial, trivial, trivial, trivial⟩

lemma blind_step_fields (t : Game) (pid amt : Nat) :
    (if (pay_blind t pid amt).2 then leave_hand (pay_blind t pid amt).1 pid
      else (pay_blind t pid amt).1).state = t.state ∧
    (if (pay_blind t pid amt).2 then leave_hand (pay_blind t pid amt).1 pid
      else (pay_blind t pid amt).1).players = t.players ∧
    (if (pay_blind t pid amt).2 then leave_hand (pay_blind t pid amt).1 pid
      else (pay_blind t pid amt).1).dealer_index = t.dealer_index := by
  by_cases hb : (pay_blind t pid amt).2 = true
  · rw [if_pos hb]
    obtain ⟨_, _, hp, hs, _, _, hd⟩ := leave_hand_fields (pay_blind t pid amt).1 pid
    exact ⟨hs, hp, hd⟩
  · rw [if_neg hb]
    exact ⟨rfl, rfl, rfl⟩

lemma next_dealer_inv (t s2 : Game)
    (h : (do
      let s3 ← next_dealer t
      let _ ← dealer_of s3
      some s3) = some s2) :
    s2.state = t.state ∧ s2.players = t.players ∧ 0 ≤ s2.dealer_index ∧
      s2.dealer_index < (s2.players.length : Int) := by
  unfold next_dealer at h
  cases hw : wrapIdx (t.dealer_index + 1) t.players.length with
  | none =>
    rw [hw] at h
    simp at h
  | some d =>
    rw [hw] at h
    simp only [option_some_bind] at h
    obtain ⟨hv, a, ha⟩ := bind_guard_inv _ _ _ h
    subst hv
    obtain ⟨hn0, hd⟩ := wrapIdx_some _ _ _ hw
    subst hd
    refine ⟨rfl, rfl, ?_, ?_⟩
    · exact Int.emod_nonneg _ (Int.natCast_ne_zero.mpr hn0)
    · exact Int.emod_lt_of_pos _ (Int.natCast_pos.mpr (Nat.pos_of_ne_zero hn0))

lemma pay_blinds_fields (now : Nat) (s s5 : Game) (h : pay_blinds now s = some s5) :
    s5.state = s.state ∧ s5.players = s.players ∧
    s5.dealer_index = s.dealer_index := by
  obtain ⟨hbt1, hbt2, hbt3, hbt4⟩ := blinds_timer_fields now s
  simp only [pay_blinds] at h
  split at h
  · cases hw1 : wrapIdx ((blinds_timer now s).dealer_index + 1)
        (blinds_timer now s).in_hand.length with
    | none => rw [hw1] at h; simp at h
    | some i1 =>
      rw [hw1, option_some_bind] at h
      cases hg1 : pyGet (blinds_timer now s).players i1 with
      | none => rw [hg1] at h; simp at h
      | some small =>
        rw [hg1, option_some_bind] at h
        cases hw2 : wrapIdx ((blinds_timer now s).dealer_index + 2)
            (blinds_timer now s).in_hand.length with
        | none => rw [hw2] at h; simp at h
        | some i2 =>
          rw [hw2, option_some_bind] at h
          cases hg2 : pyGet (blinds_timer now s).players i2 with
          | none => rw [hg2] at h; simp at h
          | some big =>
            rw [hg2, option_some_bind] at h
            cases hw3 : wrapIdx ((blinds_timer now s).dealer_index + 3)
                (blinds_timer now s).in_hand.length with
            | none => rw [hw3] at h; simp at h
            | some ti =>
              rw [hw3, option_some_bind] at h
              cases hw4 : wrapIdx ((blinds_timer now s).dealer_index + 1)
                  (blinds_timer now s).players.length with
              | none => rw [hw4] at h; simp at h
              | some fb =>
                rw [hw4, option_some_bind] at h
                injection h with h
                subst h
                refine ⟨?_, ?_, ?_⟩
                · rw [(blind_step_fields _ _ _).1, (blind_step_fields _ _ _).1]
                  exact hbt1
                · rw [(blind_step_fields _ _ _).2.1, (blind_step_fields _ _ _).2.1]
                  exact hbt2
                · rw [(blind_step_fields _ _ _).2.2, (blind_step_fields _ _ _).2.2]
                  exact hbt3
  · cases hg1 : pyGet (blinds_timer now s).players (blinds_timer now s).dealer_index with
    | none => rw [hg1] at h; simp at h
    | some small =>
      rw [hg1, option_some_bind] at h
      cases hg2 : pyGet (blinds_timer now s).players
          ((blinds_timer now s).dealer_index - 1) with
      | none => rw [hg2] at h; simp at h
      | some big =>
        rw [hg2, option_some_bind] at h
        injection h with h
        subst h
        refine ⟨?_, ?_, ?_⟩
        · rw [(blind_step_fields _ _ _).1, (blind_step_fields _ _ _).1]
          exact hbt1
        · rw [(blind_step_fields _ _ _).2.1, (blind_step_fields _ _ _).2.1]
          exact hbt2
        · rw [(blind_step_fields _ _ _).2.2, (blind_step_fields _ _ _).2.2]
          exact hbt3

lemma next_round_common_inv (s s2 : Game) (h : next_round_common s = some s2) :
    s2.state = s.state ∧ s2.dealer_index = s.dealer_index ∧
    s2.players = s.players ∧ (pyGet s2.in_hand s2.turn_index).isSome = true := by
  unfold next_round_common at h
  obtain ⟨hv, a, ha⟩ := bind_guard_inv _ _ _ h
  subst hv
  refine ⟨rfl, rfl, rfl, ?_⟩
  rw [ha]
  rfl

lemma showdown_inv (s s2 : Game) (h : showdown s = some s2) :
    s2.state = GameState.NO_GAME ∨
    (s2.state = GameState.NO_HANDS ∧ 0 ≤ s2.dealer_index ∧
      s2.dealer_index < (s2.players.length : Int)) := by
  unfold showdown at h
  cases hds : draw_shared s (5 - s.shared_cards.length) with
  | none => rw [hds] at h; simp at h
  | some s1 =>
    rw [hds, option_some_bind] at h
    simp only [elim_phase] at h
    split at h
    · injection h with h
      subst h
      exact Or.inl rfl
    · obtain ⟨e1, e2, e3, e4⟩ := next_dealer_inv _ _ h
      exact Or.inr ⟨e1, e3, e4⟩

lemma showdown_gameInv (s s2 : Game) (h : showdown s = some s2) : GameInv s2 := by
  rcases showdown_inv _ _ h with h2 | ⟨h2, h3, h4⟩
  · constructor
    · intro ha
      rw [h2] at ha
      simp [active_hand] at ha
    · intro ha
      rcases ha with ha | ha
      · rw [h2] at ha
        simp [active_hand] at ha
      · rw [h2] at ha
        exact absurd ha (by simp)
  · constructor
    · intro ha
      rw [h2] at ha
      simp [active_hand] at ha
    · intro _
      exact ⟨h3, h4⟩

lemma next_round_inv (s s2 : Game)
    (hdlr : 0 ≤ s.dealer_index ∧ s.dealer_index < (s.players.length : Int))
    (hst : active_hand s.state = true)
    (h : next_round s = some s2) : GameInv s2 := by
  have hdraw : ∀ (k : Nat) (st : GameState),
      (do
        let s1 ← draw_shared s k
        next_round_common { s1 with state := st }) = some s2 →
      active_hand st = true → GameInv s2 := by
    intro k st hk hact
    cases hds : draw_shared s k with
    | none => rw [hds] at hk; simp at hk
    | some s1 =>
      rw [hds, option_some_bind] at hk
      obtain ⟨c1, c2, c3, c4⟩ := next_round_common_inv _ _ hk
      simp only [] at c1 c2 c3
      obtain ⟨d1, d2, d3, d4, d5, d6, d7, d8⟩ := draw_shared_fields _ _ _ hds
      constructor
      · intro _
        exact c4
      · intro _
        rw [c2, c3, d7, d5]
        exact hdlr
  rcases (active_hand_iff s.state).mp hst with h1 | h1 | h1 | h1
  · simp only [next_round, h1] at h
    exact hdraw 3 GameState.FLOP_DEALT h rfl
  · simp only [next_round, h1] at h
    exact hdraw 1 GameState.TURN_DEALT h rfl
  · simp only [next_round, h1] at h
    exact hdraw 1 GameState.RIVER_DEALT h rfl
  · simp only [next_round, h1] at h
    exact showdown_gameInv _ _ h

lemma next_turn_inv (s s2 : Game)
    (hdlr : 0 ≤ s.dealer_index ∧ s.dealer_index < (s.players.length : Int))
    (hst : active_hand s.state = true)
    (h : next_turn s = some s2) : GameInv s2 := by
  unfold next_turn at h
  split at h
  · split at h
    · exact showdown_gameInv _ _ h
    · exact next_round_inv _ _ hdlr hst h
  · cases hw : wrapIdx (s.turn_index + 1) s.in_hand.length with
    | none => rw [hw] at h; simp at h
    | some t =>
      rw [hw, option_some_bind] at h
      obtain ⟨hv, a, ha⟩ := bind_guard_inv _ _ _ h
      subst hv
      constructor
      · intro _
        rw [ha]
        rfl
      · intro _
        exact hdlr

lemma check_inv (s s2 : Game)
    (hst : active_hand s.state = true)
    (hdlr : 0 ≤ s.dealer_index ∧ s.dealer_index < (s.players.length : Int))
    (h : check s = some s2) : GameInv s2 := by
  unfold check at h
  cases hc : pyGet s.in_hand s.turn_index with
  | none => rw [hc] at h; simp at h
  | some cur =>
    rw [hc, option_some_bind] at h
    simp only [] at h
    refine next_turn_inv _ _ ?_ ?_ h
    · exact hdlr
    · exact hst

lemma call_inv (s s2 : Game)
    (hst : active_hand s.state = true)
    (hdlr : 0 ≤ s.dealer_index ∧ s.dealer_index < (s.players.length : Int))
    (h : call s = some s2) : GameInv s2 := by
  unfold call at h
  cases hc : pyGet s.in_hand s.turn_index with
  | none => rw [hc] at h; simp at h
  | some cur =>
    rw [hc, option_some_bind] at h
    simp only [] at h
    split at h
    · refine next_turn_inv _ _ ⟨?_, ?_⟩ ?_ h
      · show (0 : Int) ≤ (leave_hand (handle_call s cur) cur).dealer_index
        rw [(leave_hand_fields _ _).2.2.2.2.2.2]
        exact hdlr.1
      · show (leave_hand (handle_call s cur) cur).dealer_index <
          ((leave_hand (handle_call s cur) cur).players.length : Int)
        rw [(leave_hand_fields _ _).2.2.2.2.2.2, (leave_hand_fields _ _).2.2.1]
        exact hdlr.2
      · show active_hand (leave_hand (handle_call s cur) cur).state = true
        rw [(leave_hand_fields _ _).2.2.2.1]
        exact hst
    · refine next_turn_inv _ _ ?_ ?_ h
      · exact hdlr
      · exact hst

lemma handle_raise_fields (s : Game) (pid amt : Nat) (s1 : Game)
    (h : handle_raise s pid amt = some s1) :
    s1.state = s.state ∧ s1.players = s.players ∧
    s1.dealer_index = s.dealer_index := by
  simp only [handle_raise] at h
  split at h
  · simp at h
  · injection h with h
    subst h
    exact ⟨rfl, rfl, rfl⟩

lemma raise_bet_inv (s s2 : Game) (amount : Nat)
    (hst : active_hand s.state = true)
    (hdlr : 0 ≤ s.dealer_index ∧ s.dealer_index < (s.players.length : Int))
    (h : raise_bet s amount = some s2) : GameInv s2 := by
  unfold raise_bet at h
  cases hc : pyGet s.in_hand s.turn_index with
  | none => rw [hc] at h; simp at h
  | some cur =>
    rw [hc, option_some_bind] at h
    cases hr : handle_raise s cur amount with
    | none => rw [hr] at h; simp at h
    | some s1 =>
      rw [hr, option_some_bind] at h
      obtain ⟨f1, f2, f3⟩ := handle_raise_fields _ _ _ _ hr
      simp only [] at h
      split at h
      · refine next_turn_inv _ _ ⟨?_, ?_⟩ ?_ h
        · show (0 : Int) ≤ (leave_hand s1 cur).dealer_index
          rw [(leave_hand_fields _ _).2.2.2.2.2.2, f3]
          exact hdlr.1
        · show (leave_hand s1 cur).dealer_index <
            ((leave_hand s1 cur).players.length : Int)
          rw [(leave_hand_fields _ _).2.2.2.2.2.2,
            (leave_hand_fields _ _).2.2.1, f3, f2]
          exact hdlr.2
        · show active_hand (leave_hand s1 cur).state = true
          rw [(leave_hand_fields _ _).2.2.2.1, f1]
          exact hst
      · refine next_turn_inv _ _ ⟨?_, ?_⟩ ?_ h
        · rw [f3]
          exact hdlr.1
        · rw [f3, f2]
          exact hdlr.2
        · rw [f1]
          exact hst

lemma all_in_inv (s s2 : Game)
    (hst : active_hand s.state = true)
    (hdlr : 0 ≤ s.dealer_index ∧ s.dealer_index < (s.players.length : Int))
    (h : all_in s = some s2) : GameInv s2 := by
  unfold all_in at h
  cases hc : pyGet s.in_hand s.turn_index with
  | none => rw [hc] at h; simp at h
  | some cur =>
    rw [hc, option_some_bind] at h
    split at h
    · exact call_inv _ _ hst hdlr h
    · exact raise_bet_inv _ _ _ hst hdlr h

lemma fold_inv (s s2 : Game)
    (hst : active_hand s.state = true)
    (hdlr : 0 ≤ s.dealer_index ∧ s.dealer_index < (s.players.length : Int))
    (h : fold s = some s2) : GameInv s2 := by
  unfold fold at h
  cases hc : pyGet s.in_hand s.turn_index with
  | none => rw [hc] at h; simp at h
  | some cur =>
    rw [hc, option_some_bind] at h
    simp only [] at h
    split at h
    · cases hh : (leave_hand (handle_fold s cur) cur).pot.in_pot.head? with
      | none => rw [hh] at h; simp at h
      | some w =>
        rw [hh, option_some_bind] at h
        obtain ⟨e1, e2, e3, e4⟩ := next_dealer_inv _ _ h
        constructor
        · intro ha
          rw [e1] at ha
          simp [active_hand] at ha
        · intro _
          exact ⟨e3, e4⟩
    · split at h
      · exact showdown_gameInv _ _ h
      · refine next_turn_inv _ _ ⟨?_, ?_⟩ ?_ h
        · show (0 : Int) ≤ (leave_hand (handle_fold s cur) cur).dealer_index
          rw [(leave_hand_fields _ _).2.2.2.2.2.2]
          exact hdlr.1
        · show (leave_hand (handle_fold s cur) cur).dealer_index <
            ((leave_hand (handle_fold s cur) cur).players.length : Int)
          rw [(leave_hand_fields _ _).2.2.2.2.2.2, (leave_hand_fields _ _).2.2.1]
          exact hdlr.2
        · show active_hand (leave_hand (handle_fold s cur) cur).state = true
          rw [(leave_hand_fields _ _).2.2.2.1]
          exact hst

lemma deal_hands_inv (deckArg : List Nat) (now : Nat) (s s2 : Game)
    (hst : s.state = GameState.NO_HANDS)
    (hdlr : 0 ≤ s.dealer_index ∧ s.dealer_index < (s.players.length : Int))
    (h : deal_hands deckArg now s = some s2) : GameInv s2 := by
  unfold deal_hands at h
  simp only [] at h
  cases hdl : deal_loop { s with deck := deckArg, shared_cards := [], in_hand := [] }
      s.players with
  | none => rw [hdl] at h; simp at h
  | some s1 =>
    rw [hdl, option_some_bind] at h
    obtain ⟨g1, g2, g3⟩ := deal_loop_fields _ _ _ hdl
    have g1' : s1.players = s.players := g1
    have g2' : s1.dealer_index = s.dealer_index := g2
    split at h
    · cases hpb : pay_blinds now
          { s1 with state := GameState.HANDS_DEALT, pot := pot_new_hand s1.players } with
      | none => rw [hpb] at h; simp at h
      | some s3 =>
        rw [hpb, option_some_bind] at h
        obtain ⟨p1, p2, p3⟩ := pay_blinds_fields _ _ _ hpb
        have q1 : s3.state = GameState.HANDS_DEALT := by rw [p1]
        have q2 : s3.dealer_index = s.dealer_index := by rw [p3]; exact g2'
        have q3 : s3.players = s.players := by rw [p2]; exact g1'
        refine next_turn_inv _ _ ⟨?_, ?_⟩ ?_ h
        · show (0 : Int) ≤ s3.dealer_index
          rw [q2]
          exact hdlr.1
        · show s3.dealer_index < (s3.players.length : Int)
          rw [q2, q3]
          exact hdlr.2
        · show active_hand s3.state = true
          rw [q1]
          rfl
    · rw [option_some_bind] at h
      refine next_turn_inv _ _ ⟨?_, ?_⟩ ?_ h
      · show (0 : Int) ≤ s1.dealer_index
        rw [g2']
        exact hdlr.1
      · show s1.dealer_index < (s1.players.length : Int)
        rw [g2', g1']
        exact hdlr.2
      · show active_hand GameState.HANDS_DEALT = true
        rfl

def c6_chain : Option Game := do
  let g0 := new_game_command none 0
  let g1 := add_player g0 1
  let g2 ← start_command g1 0
  let g3 ← deal_hands [50, 51, 52, 53, 54, 55, 56, 57] 0 g2
  let g4 ← call g3
  check g4

def c6_state : Game := c6_chain.get (by decide)

/-- C6, counterexample to the claim as stated: a hand reached through the
public commands alone (new_game, join, start, deal, then a call and a
check) is live on the flop with both players still in the hand, yet the
turn index is -1, which is not a valid position of in_hand; the game only
keeps working because Python resolves the -1 as the last element. -/
theorem C6_turn_validity_counterexample :
    c6_chain = some c6_state ∧
    active_hand c6_state.state = true ∧
    c6_state.in_hand = [0, 1] ∧
    c6_state.turn_index = -1 ∧
    ¬(0 ≤ c6_state.turn_index ∧
        c6_state.turn_index < (c6_state.in_hand.length : Int)) ∧
    pyGet c6_state.in_hand c6_state.turn_index = some 1 := by
  exact ⟨(Option.some_get _).symm, by decide, by decide, by decide, by decide,
    by decide⟩

/-- C6 (amended): during an active hand the turn index designates, under
Python list indexing (so possibly through a negative index such as the -1
produced by the heads-up first_bettor), a player still in in_hand, and the
dealer index is a valid position of the seated players list; this holds at
the end of every public betting operation (check, call, raise_bet, all_in,
fold, deal_hands, next_turn, next_round), each operation run from a state
satisfying the same invariant and, as in the bot's dispatch, a state whose
hand is live (NO_HANDS for deal_hands). -/
theorem C6_turn_dealer_validity :
    (∀ s : Game, GameInv s → active_hand s.state = true →
      (∃ pid, pyGet s.in_hand s.turn_index = some pid ∧ pid ∈ s.in_hand) ∧
      0 ≤ s.dealer_index ∧ s.dealer_index < (s.players.length : Int) ∧
      ∃ pid, pyGet s.players s.dealer_index = some pid ∧ pid ∈ s.players) ∧
    (∀ s s2 : Game, GameInv s → active_hand s.state = true →
      check s = some s2 → GameInv s2) ∧
    (∀ s s2 : Game, GameInv s → active_hand s.state = true →
      call s = some s2 → GameInv s2) ∧
    (∀ (s s2 : Game) (amount : Nat), GameInv s → active_hand s.state = true →
      raise_bet s amount = some s2 → GameInv s2) ∧
    (∀ s s2 : Game, GameInv s → active_hand s.state = true →
      all_in s = some s2 → GameInv s2) ∧
    (∀ s s2 : Game, GameInv s → active_hand s.state = true →
      fold s = some s2 → GameInv s2) ∧
    (∀ (s s2 : Game) (deckArg : List Nat) (now : Nat), GameInv s →
      s.state = GameState.NO_HANDS → deal_hands deckArg now s = some s2 →
      GameInv s2) ∧
    (∀ s s2 : Game, GameInv s → active_hand s.state = true →
      next_turn s = some s2 → GameInv s2) ∧
    (∀ s s2 : Game, GameInv s → active_hand s.state = true →
      next_round s = some s2 → GameInv s2) := by
  refine ⟨?_, ?_, ?_, ?_, ?_, ?_, ?_, ?_, ?_⟩
  · intro s hInv hact
    obtain ⟨hb1, hb2⟩ := hInv.2 (Or.inl hact)
    obtain ⟨pid, hp⟩ := Option.isSome_iff_exists.mp (hInv.1 hact)
    obtain ⟨q, hq⟩ := pyGet_some_of_bounds s.players s.dealer_index hb1 hb2
    exact ⟨⟨pid, hp, pyGet_mem _ _ _ hp⟩, hb1, hb2, q, hq, pyGet_mem _ _ _ hq⟩
  · intro s s2 hInv hact h
    exact check_inv _ _ hact (hInv.2 (Or.inl hact)) h
  · intro s s2 hInv hact h
    exact call_inv _ _ hact (hInv.2 (Or.inl hact)) h
  · intro s s2 amount hInv hact h
    exact raise_bet_inv _ _ _ hact (hInv.2 (Or.inl hact)) h
  · intro s s2 hInv hact h
    exact all_in_inv _ _ hact (hInv.2 (Or.inl hact)) h
  · intro s s2 hInv hact h
    exact fold_inv _ _ hact (hInv.2 (Or.inl hact)) h
  · intro s s2 deckArg now hInv hst h
    exact deal_hands_inv _ _ _ _ hst (hInv.2 (Or.inr hst)) h
  · intro s s2 hInv hact h
    exact next_turn_inv _ _ (hInv.2 (Or.inl hact)) hact h
  · intro s s2 hInv hact h
    exact next_round_inv _ _ (hInv.2 (Or.inl hact)) hact h

def c6_check_result : Game := (check c6_state).get (by decide)

theorem C6_turn_dealer_validity_witness :
    GameInv c6_state ∧ active_hand c6_state.state = true ∧
    check c6_state = some c6_check_result ∧ GameInv c6_check_result :=
  ⟨by decide, by decide, (Option.some_get _).symm,
    C6_turn_dealer_validity.2.1 c6_state c6_check_result (by decide) (by decide)
      (Option.some_get _).symm⟩
